import Mathlib

/-!
Shallow embedding of the alarm manager (`main/mcp/alarm.cc` / `alarm.h`).

Machine integers (`int`, `long`, `time_t`) are modelled as `Int`; the C `%`
operator on signed integers is truncated remainder, modelled by `Int.tmod`.
`uint16_t` is modelled as `Nat` (values are reduced mod 2^16 where the code
casts).  `gmtime` is modelled as a total civil-date decomposition of a
non-negative epoch-second count (the code's `gmtime == NULL` branch is
unreachable for representable times and is not modelled); theorems about the
calendar scans therefore assume `0 ≤ now`.
-/

namespace AlarmMgr

/-! ### Time arithmetic (`timegm_compat`, `MakeTimeUTC`) -/

/-- The leap-year test as written in the code: `(y%4==0 && y%100!=0) || (y%400==0)`
with C truncated `%`. -/
def leapYearI (y : Int) : Bool :=
  (y.tmod 4 == 0 && y.tmod 100 != 0) || (y.tmod 400 == 0)

/-- `static const int mdays[12] = {31,28,31,30,31,30,31,31,30,31,30,31};` -/
def mdaysTable : List Int := [31, 28, 31, 30, 31, 30, 31, 31, 30, 31, 30, 31]

/-- Days from 1970-01-01 to the start of `year`:
`for (int y = 1970; y < year; ++y) days += 365 + leap(y);`
(the loop body never runs when `year ≤ 1970`). -/
def daysSince1970 (year : Int) : Int :=
  (List.range (year - 1970).toNat).foldl
    (fun (acc : Int) (k : Nat) =>
      acc + 365 + (if leapYearI (1970 + (k : Int)) then 1 else 0)) 0

/-- Days in `year` before month `month` (1-based):
`for (int m = 1; m < month; ++m) { days += mdays[m-1]; if (m==2 && leap) days += 1; }`. -/
def monthPrefixDays (year : Int) (month : Nat) : Int :=
  (List.range (month - 1)).foldl
    (fun acc k => acc + mdaysTable.getD k 0 +
      (if k = 1 ∧ leapYearI year then 1 else 0)) 0

/-- `timegm_compat`: seconds since epoch from broken-down UTC fields.  The
month is clamped into `[1,12]`; nothing else is clamped. -/
def timegm_compat (year month day hour minute second : Int) : Int :=
  let month1 := if month ≤ 0 then 1 else month
  let month2 := if month1 > 12 then 12 else month1
  let days := daysSince1970 year + monthPrefixDays year month2.toNat + (day - 1)
  days * 86400 + hour * 3600 + minute * 60 + second

/-- `MakeTimeUTC` fills a `struct tm` (offsetting year by 1900 and month by 1)
and calls `timegm_compat`, which undoes both offsets, so it is exactly
`timegm_compat` on the raw fields. -/
def MakeTimeUTC (year month day hour minute second : Int) : Int :=
  timegm_compat year month day hour minute second

/-! ### Civil decomposition (model of `gmtime` for non-negative times) -/

/-- Nat-side leap test (agrees with `leapYearI` on non-negative years). -/
def isLeapN (y : Nat) : Bool := (y % 4 == 0 && y % 100 != 0) || (y % 400 == 0)

def yearLen (y : Nat) : Nat := 365 + (if isLeapN y then 1 else 0)

/-- Month lengths of year `y`, January first. -/
def monthLens (y : Nat) : List Nat :=
  [31, if isLeapN y then 29 else 28, 31, 30, 31, 30, 31, 31, 30, 31, 30, 31]

/-- Strip whole years starting at `y` from a day count `rem` (fuel-driven so
that the kernel can evaluate it). -/
def findYear : Nat → Nat → Nat → Nat × Nat
  | 0, y, rem => (y, rem)
  | fuel + 1, y, rem =>
    if rem < yearLen y then (y, rem) else findYear fuel (y + 1) (rem - yearLen y)

/-- Strip whole months (given as a length list) from a day count. -/
def findMonth : List Nat → Nat → Nat → Nat × Nat
  | [], m, rem => (m, rem)
  | L :: ls, m, rem =>
    if rem < L then (m, rem) else findMonth ls (m + 1) (rem - L)

/-- Civil date `(year, month, day)` (month and day 1-based) of day number `n`
counted from 1970-01-01; models the date fields of `gmtime`. -/
def civilFromDays (n : Nat) : Nat × Nat × Nat :=
  let yr := findYear (n / 365 + 1) 1970 n
  let md := findMonth (monthLens yr.1) 0 yr.2
  (yr.1, md.1 + 1, md.2 + 1)

/-- `tm_wday` of an instant: 0 = Sunday; 1970-01-01 was a Thursday (= 4). -/
def wdayOf (c : Int) : Nat := (c.toNat / 86400 + 4) % 7

/-- Day number (days since epoch) of a non-negative instant. -/
def dayNumOf (c : Int) : Nat := c.toNat / 86400

/-! ### Data model (`alarm.h`) -/

inductive AlarmType where
  | OneShot
  | Daily
  | Weekly
  | Monthly
  | Interval
deriving DecidableEq, Repr

structure AlarmItem where
  id : Int
  enabled : Bool
  type : AlarmType
  year : Int
  month : Int
  day : Int
  hour : Int
  minute : Int
  second : Int
  weekdays_mask : Nat
  interval_seconds : Int
  label : String
  next_trigger : Int
deriving DecidableEq, Repr

/-- The field initializers of `struct AlarmItem`. -/
def defaultAlarmItem : AlarmItem :=
  { id := 0, enabled := true, type := .OneShot, year := 0, month := 0, day := 0,
    hour := 0, minute := 0, second := 0, weekdays_mask := 0, interval_seconds := 0,
    label := "", next_trigger := 0 }

/-! ### Recurrence engine (`RecalculateNextTrigger`) -/

/-- `maskIndex = (weekday == 0) ? 6 : (weekday - 1)` — Sunday-based `tm_wday`
to the Monday-based mask bit index. -/
def maskIndexOfWday (weekday : Nat) : Nat := if weekday = 0 then 6 else weekday - 1

/-- One iteration of the Weekly scan: the candidate instant offered at day
offset `offset`, or `none` when the loop body does not return. -/
def weeklyCand (item : AlarmItem) (now : Int) (offset : Nat) : Option Int :=
  let candidate := now + (offset : Int) * 24 * 3600
  let ymd := civilFromDays (dayNumOf candidate)
  let maskIndex := maskIndexOfWday (wdayOf candidate)
  if item.weekdays_mask.testBit maskIndex then
    let t := timegm_compat ymd.1 ymd.2.1 ymd.2.2 item.hour item.minute item.second
    if t > now then some t else none
  else none

/-- The Weekly branch: scan at most 14 day offsets, first hit wins, else 0. -/
def recalcWeekly (item : AlarmItem) (now : Int) : Int :=
  ((List.range 14).findSome? (weeklyCand item now)).getD 0

/-- Month length used by the Monthly branch
(`31`, or `30` for 4/6/9/11, or `28/29` for February). -/
def monthDaysOf (y m : Nat) : Nat :=
  if m = 4 ∨ m = 6 ∨ m = 9 ∨ m = 11 then 30
  else if m = 2 then (if isLeapN y then 29 else 28) else 31

/-- One iteration of the Monthly scan (iteration `i`, with the running month
counter equal to `startM + i` because both branches do `month++`). -/
def monthlyCand (item : AlarmItem) (now : Int) (startY startM : Nat) (i : Nat) :
    Option Int :=
  let month := startM + i
  let y := startY + (month - 1) / 12
  let m := (month - 1) % 12 + 1
  let day : Int := if item.day < 1 then 1 else item.day
  let mdays := monthDaysOf y m
  if day > (mdays : Int) then none
  else
    let t := MakeTimeUTC (y : Int) (m : Int) day item.hour item.minute item.second
    if t > now then some t else none

/-- The Monthly branch: scan at most 24 months from `now`'s month. -/
def recalcMonthly (item : AlarmItem) (now : Int) : Int :=
  let ymd := civilFromDays (dayNumOf now)
  ((List.range 24).findSome? (monthlyCand item now ymd.1 ymd.2.1)).getD 0

/-- The Daily branch: today's date at the alarm's time of day, plus 24h if
that already passed. -/
def recalcDaily (item : AlarmItem) (now : Int) : Int :=
  let ymd := civilFromDays (dayNumOf now)
  let candidate := timegm_compat ymd.1 ymd.2.1 ymd.2.2 item.hour item.minute item.second
  if candidate ≤ now then candidate + 24 * 3600 else candidate

/-- `AlarmManager::RecalculateNextTrigger` as a pure record transformer. -/
def RecalculateNextTrigger (item : AlarmItem) (now : Int) : AlarmItem :=
  if ¬item.enabled then { item with next_trigger := 0 }
  else
    match item.type with
    | .OneShot =>
      let t := MakeTimeUTC item.year item.month item.day item.hour item.minute item.second
      if t ≤ now then { item with enabled := false, next_trigger := 0 }
      else { item with next_trigger := t }
    | .Daily => { item with next_trigger := recalcDaily item now }
    | .Weekly => { item with next_trigger := recalcWeekly item now }
    | .Monthly => { item with next_trigger := recalcMonthly item now }
    | .Interval =>
      let interval := if item.interval_seconds ≤ 0 then 60 else item.interval_seconds
      if item.next_trigger = 0 ∨ item.next_trigger ≤ now then
        { item with next_trigger := now + interval }
      else item

/-! ### Single-timer scheduler (`ScheduleTimer`) -/

/-- One step of the soonest-alarm scan: state is `(soonest, target)` with the
`soonest == 0` sentinel meaning "no target yet". -/
def scanStep (st : Int × Option AlarmItem) (a : AlarmItem) : Int × Option AlarmItem :=
  if ¬a.enabled ∨ a.next_trigger = 0 then st
  else if st.1 = 0 ∨ a.next_trigger < st.1 then (a.next_trigger, some a) else st

/-- `ScheduleTimer`'s decision: the targeted deadline of the single armed
one-shot timer (`some soonest`), or `none` when it leaves the scheduler Idle
("No active alarms to schedule").  The physical arming adds a one-second
safety margin on top of `max(deadline - now, 1ms)`; the targeted deadline is
the `soonest` value scanned here. -/
def ScheduleTimer (alarms : List AlarmItem) : Option Int :=
  match alarms.foldl scanStep (0, none) with
  | (_, none) => none
  | (s, some _) => some s

/-! ### Alarm store operations -/

structure AlarmStore where
  alarms : List AlarmItem
  next_id : Int
deriving Repr

/-- `AddAlarm`: copy the template, assign the next id, recompute the trigger,
append; returns the new id. -/
def AddAlarm (store : AlarmStore) (tpl : AlarmItem) (now : Int) : AlarmStore × Int :=
  let item := RecalculateNextTrigger { tpl with id := store.next_id } now
  ({ alarms := store.alarms ++ [item], next_id := store.next_id + 1 }, store.next_id)

/-- `RemoveAlarm`: erase every record with the id (`remove_if`/`erase`);
reports whether anything was removed (early-returns without persisting or
re-arming when nothing matched). -/
def RemoveAlarm (store : AlarmStore) (id : Int) : AlarmStore × Bool :=
  if store.alarms.any (fun a => a.id = id) then
    ({ store with alarms := store.alarms.filter (fun a => a.id ≠ id) }, true)
  else (store, false)

/-- Helper for `EnableAlarm`: update the first record with the id. -/
def enableFirst : List AlarmItem → Int → Bool → Int → List AlarmItem × Bool
  | [], _, _, _ => ([], false)
  | a :: rest, id, en, now =>
    if a.id = id then
      (((if en then RecalculateNextTrigger { a with enabled := true } now
         else { a with enabled := false, next_trigger := 0 })) :: rest, true)
    else
      let r := enableFirst rest id en now
      (a :: r.1, r.2)

/-- `EnableAlarm`: flip the flag on the first matching record; recompute the
trigger when enabling, zero it when disabling. -/
def EnableAlarm (store : AlarmStore) (id : Int) (en : Bool) (now : Int) :
    AlarmStore × Bool :=
  let r := enableFirst store.alarms id en now
  ({ store with alarms := r.1 }, r.2)

/-- `ClearAlarms`: drop all records. -/
def ClearAlarms (store : AlarmStore) : AlarmStore :=
  { store with alarms := [] }

/-- The per-record advance performed by `OnTimerFired` on a due record:
one-shots are disabled, intervals restart from the fire time, everything else
is recalculated against `now + 1`. -/
def fireAdvance (a : AlarmItem) (now : Int) : AlarmItem :=
  match a.type with
  | .OneShot => { a with enabled := false, next_trigger := 0 }
  | .Interval =>
    { a with next_trigger :=
        now + (if a.interval_seconds > 0 then a.interval_seconds else 60) }
  | _ => RecalculateNextTrigger a (now + 1)

/-- `OnTimerFired`: every enabled record with a nonzero trigger that is due
(`next_trigger ≤ now`) fires its side effects (external) and is advanced. -/
def OnTimerFired (alarms : List AlarmItem) (now : Int) : List AlarmItem :=
  alarms.map (fun a =>
    if a.enabled ∧ a.next_trigger ≠ 0 ∧ a.next_trigger ≤ now then fireAdvance a now
    else a)

/-! ### Persistence (`SaveToSettings` / `LoadFromSettings`)

The cJSON array is modelled as a list of `SavedAlarm` records; optional
fields that `LoadFromSettings` tolerates missing are `Option`s. -/

def AlarmTypeToString : AlarmType → String
  | .OneShot => "once"
  | .Daily => "daily"
  | .Weekly => "weekly"
  | .Monthly => "monthly"
  | .Interval => "interval"

def ParseAlarmType (s : String) : AlarmType :=
  if s = "once" then .OneShot
  else if s = "daily" then .Daily
  else if s = "weekly" then .Weekly
  else if s = "monthly" then .Monthly
  else if s = "interval" then .Interval
  else .OneShot

structure SavedAlarm where
  id : Int
  enabled : Bool
  type : String
  year : Int
  month : Int
  day : Int
  hour : Int
  minute : Int
  second : Option Int
  weekdays : Option Int
  interval : Option Int
  label : Option String
deriving DecidableEq, Repr

/-- The JSON object written for one alarm: every field always, except
`interval`, which is written only for `Interval`-typed alarms. -/
def saveAlarm (a : AlarmItem) : SavedAlarm :=
  { id := a.id, enabled := a.enabled, type := AlarmTypeToString a.type,
    year := a.year, month := a.month, day := a.day, hour := a.hour,
    minute := a.minute, second := some a.second,
    weekdays := some (a.weekdays_mask : Int),
    interval := if a.type = .Interval then some a.interval_seconds else none,
    label := some a.label }

/-- `SaveToSettings`: only enabled alarms are written. -/
def SaveToSettings (alarms : List AlarmItem) : List SavedAlarm :=
  (alarms.filter (fun a => a.enabled)).map saveAlarm

/-- `LoadFromSettings` on one record: missing `second`/`weekdays`/`interval`/
`label` keep the `AlarmItem` field initializers; `weekdays` goes through the
`(uint16_t)` cast. -/
def loadAlarm (s : SavedAlarm) : AlarmItem :=
  { defaultAlarmItem with
    id := s.id, enabled := s.enabled, type := ParseAlarmType s.type,
    year := s.year, month := s.month, day := s.day, hour := s.hour,
    minute := s.minute,
    second := s.second.getD 0,
    weekdays_mask := (match s.weekdays with
      | some w => (w % 65536).toNat
      | none => 0),
    interval_seconds := s.interval.getD 0,
    label := s.label.getD "" }

def LoadFromSettings (saved : List SavedAlarm) : List AlarmItem :=
  saved.map loadAlarm

/-! ### Derived notions used to state the claims -/

/-- The triggers the scheduler scan considers: enabled records with nonzero
`next_trigger`. -/
def relevantTriggers (alarms : List AlarmItem) : List Int :=
  (alarms.filter (fun a => a.enabled && a.next_trigger != 0)).map
    (fun a => a.next_trigger)

/-- The scheduler-consistency property of an alarm list: Idle exactly when no
enabled record has a nonzero trigger, otherwise armed at the minimum such
trigger. -/
def SchedulerConsistent (alarms : List AlarmItem) : Prop :=
  (relevantTriggers alarms = [] → ScheduleTimer alarms = none) ∧
  (relevantTriggers alarms ≠ [] →
    ∃ m, ScheduleTimer alarms = some m ∧ m ∈ relevantTriggers alarms ∧
      ∀ x ∈ relevantTriggers alarms, m ≤ x)

/-- The disabled-record invariant: every disabled record carries trigger 0. -/
def DisabledZero (alarms : List AlarmItem) : Prop :=
  ∀ a ∈ alarms, a.enabled = false → a.next_trigger = 0

/-- Proof-side abbreviation: the first component of the scheduler scan
depends only on the first component of the state. -/
def scanVal (v : Int) (a : AlarmItem) : Int :=
  if ¬a.enabled ∨ a.next_trigger = 0 then v
  else if v = 0 ∨ a.next_trigger < v then a.next_trigger else v

/-! ### Spec-side formulation of the Gregorian day count (for the refinement
part of C7): written from the spec's words, to be compared with
`timegm_compat`. -/

/-- Spec: out-of-range month (≤0 or >12) is clamped into [1,12]. -/
def clampMonth (month : Int) : Int :=
  if month ≤ 0 then 1 else if 12 < month then 12 else month

/-- Spec: Gregorian leap-year rule `div4 && !div100 || div400`. -/
def specLeap (y : Int) : Bool := decide ((4 ∣ y ∧ ¬(100 ∣ y)) ∨ 400 ∣ y)

/-- Spec: length of month `m` (1-based) in year `y`. -/
def specMonthLen (y : Int) : Nat → Int
  | 1 => 31
  | 2 => if specLeap y then 29 else 28
  | 3 => 31
  | 4 => 30
  | 5 => 31
  | 6 => 30
  | 7 => 31
  | 8 => 31
  | 9 => 30
  | 10 => 31
  | 11 => 30
  | 12 => 31
  | _ => 0

/-- Spec: days of the year strictly before month `m`. -/
def specMonthSum (y : Int) : Nat → Int
  | 0 => 0
  | m + 1 => specMonthSum y m + specMonthLen y m

/-- Spec: days contributed by the `k` whole years 1970, …, 1969 + k. -/
def specYearSum : Nat → Int
  | 0 => 0
  | k + 1 => specYearSum k + (if specLeap (1970 + (k : Int)) then 366 else 365)

/-- Spec: days from 1970-01-01 to the given (month-clamped) civil date. -/
def gregorianDaysSpec (year month day : Int) : Int :=
  specYearSum (year - 1970).toNat + specMonthSum year month.toNat + (day - 1)

/-! ### Concrete records used by scenario conjuncts and witnesses -/

/-- An interval alarm with a 30-second period (all other fields default). -/
def interval30 : AlarmItem :=
  { defaultAlarmItem with type := AlarmType.Interval, interval_seconds := 30 }

/-- A one-shot alarm for 2025-01-01 00:00:00 UTC. -/
def oneShotJan2025 : AlarmItem :=
  { defaultAlarmItem with year := 2025, month := 1, day := 1 }

/-- An enabled Daily alarm whose `interval_seconds` field happens to be 7
(used to exhibit the persistence round-trip dropping that field). -/
def dailyInterval7 : AlarmItem :=
  { defaultAlarmItem with type := AlarmType.Daily, interval_seconds := 7 }

/-- A Daily alarm for 07:00:00. -/
def daily7am : AlarmItem :=
  { defaultAlarmItem with type := AlarmType.Daily, hour := 7 }

/-- A Weekly alarm for Saturdays (mask bit 5) at 07:00:00. -/
def weeklySat7am : AlarmItem :=
  { defaultAlarmItem with
    type := AlarmType.Weekly, hour := 7, weekdays_mask := 32 }

/-- A Monthly alarm for the 31st at 08:00:00. -/
def monthly31st8am : AlarmItem :=
  { defaultAlarmItem with type := AlarmType.Monthly, day := 31, hour := 8 }

/-- Sum of `yearLen` over the `c` consecutive years starting at `y`
(proof-side companion of the `findYear` recursion). -/
def sumYearLens (y : Nat) : Nat → Nat
  | 0 => 0
  | c + 1 => sumYearLens y c + yearLen (y + c)

/-- The tuple of persisted alarm attributes named by the round-trip claim. -/
structure AlarmTuple where
  type : AlarmType
  year : Int
  month : Int
  day : Int
  hour : Int
  minute : Int
  second : Int
  weekdays_mask : Nat
  interval_seconds : Int
  label : String
deriving DecidableEq, Repr

/-- Projection of a record to the claimed persisted-attribute tuple. -/
def alarmTuple (a : AlarmItem) : AlarmTuple :=
  { type := a.type, year := a.year, month := a.month, day := a.day,
    hour := a.hour, minute := a.minute, second := a.second,
    weekdays_mask := a.weekdays_mask, interval_seconds := a.interval_seconds,
    label := a.label }

/-! ## Helper lemmas -/

theorem findSome?_append_elim {α β : Type} (l₁ l₂ : List α) (f : α → Option β) :
    (l₁ ++ l₂).findSome? f = (l₁.findSome? f).elim (l₂.findSome? f) some := by
  induction l₁ with
  | nil => simp [List.findSome?]
  | cons a l ih =>
    cases h : f a <;> simp [List.findSome?, h, ih]

theorem exists_of_findSome?_some {α β : Type} {l : List α} {f : α → Option β}
    {v : β} (h : l.findSome? f = some v) : ∃ a ∈ l, f a = some v := by
  induction l with
  | nil => simp [List.findSome?] at h
  | cons a l ih =>
    rw [List.findSome?] at h
    cases ha : f a with
    | none =>
      rw [ha] at h
      obtain ⟨b, hb, hfb⟩ := ih h
      exact ⟨b, List.mem_cons_of_mem _ hb, hfb⟩
    | some w =>
      rw [ha] at h
      exact ⟨a, List.mem_cons_self _ _, by simpa [ha] using h⟩

theorem range_findSome?_eq_none_iff {α : Type} (f : Nat → Option α) (n : Nat) :
    (List.range n).findSome? f = none ↔ ∀ i, i < n → f i = none := by
  induction n with
  | zero => simp [List.findSome?]
  | succ n ih =>
    rw [List.range_succ, findSome?_append_elim]
    cases h : (List.range n).findSome? f with
    | none =>
      have hall := ih.mp h
      simp only [Option.elim]
      constructor
      · intro hn i hi
        rcases Nat.lt_succ_iff_lt_or_eq.mp hi with hi' | rfl
        · exact hall i hi'
        · cases hfn : f i <;> simp [List.findSome?, hfn] at hn ⊢
      · intro hall'
        simp [List.findSome?, hall' n (Nat.lt_succ_self n)]
    | some v =>
      simp only [Option.elim]
      constructor
      · intro hc; exact absurd hc (by simp)
      · intro hall'
        obtain ⟨a, ha, hfa⟩ := exists_of_findSome?_some h
        rw [List.mem_range] at ha
        exact absurd (hall' a (Nat.lt_succ_of_lt ha)) (by simp [hfa])

theorem range_findSome?_eq_some_iff {α : Type} (f : Nat → Option α) (n : Nat)
    (v : α) :
    (List.range n).findSome? f = some v ↔
      ∃ i, i < n ∧ f i = some v ∧ ∀ j, j < i → f j = none := by
  induction n generalizing v with
  | zero => simp [List.findSome?]
  | succ n ih =>
    rw [List.range_succ, findSome?_append_elim]
    cases h : (List.range n).findSome? f with
    | none =>
      have hall := (range_findSome?_eq_none_iff f n).mp h
      simp only [Option.elim]
      constructor
      · intro hs
        refine ⟨n, Nat.lt_succ_self n, ?_, fun j hj => hall j hj⟩
        cases hfn : f n with
        | none => simp [List.findSome?, hfn] at hs
        | some w => simpa [List.findSome?, hfn] using hs
      · rintro ⟨i, hi, hfi, _⟩
        rcases Nat.lt_succ_iff_lt_or_eq.mp hi with hi' | rfl
        · exact absurd (hall i hi') (by simp [hfi])
        · simp [List.findSome?, hfi]
    | some w =>
      obtain ⟨i, hi, hfi, hfirst⟩ := (ih w).mp h
      simp only [Option.elim, Option.some_inj]
      constructor
      · rintro rfl
        exact ⟨i, Nat.lt_succ_of_lt hi, hfi, hfirst⟩
      · rintro ⟨i', _, hfi', hfirst'⟩
        rcases Nat.lt_trichotomy i i' with hlt | rfl | hgt
        · exact absurd (hfirst' i hlt) (by simp [hfi])
        · rw [hfi] at hfi'
          exact Option.some_inj.mp hfi'
        · exact absurd (hfirst i' hgt) (by simp [hfi'])

theorem foldl_scanStep_fst (l : List AlarmItem) :
    ∀ st : Int × Option AlarmItem,
      (l.foldl scanStep st).1 = l.foldl scanVal st.1 := by
  induction l with
  | nil => intro st; rfl
  | cons a l ih =>
    intro st
    simp only [List.foldl_cons]
    rw [ih]
    congr 1
    unfold scanStep scanVal
    by_cases h1 : ¬a.enabled ∨ a.next_trigger = 0
    · rw [if_pos h1, if_pos h1]
    · rw [if_neg h1, if_neg h1]
      by_cases h2 : st.1 = 0 ∨ a.next_trigger < st.1
      · rw [if_pos h2, if_pos h2]
      · rw [if_neg h2, if_neg h2]

theorem foldl_scanStep_snd_absorb (l : List AlarmItem) :
    ∀ st : Int × Option AlarmItem, (l.foldl scanStep st).2 = none →
      st.2 = none := by
  induction l with
  | nil => intro st h; exact h
  | cons a l ih =>
    intro st h
    have h2 := ih _ h
    unfold scanStep at h2
    by_cases h1 : ¬a.enabled ∨ a.next_trigger = 0
    · rwa [if_pos h1] at h2
    · rw [if_neg h1] at h2
      by_cases hg : st.1 = 0 ∨ a.next_trigger < st.1
      · rw [if_pos hg] at h2; simp at h2
      · rwa [if_neg hg] at h2

theorem scanStep_state_inv (a : AlarmItem) (st : Int × Option AlarmItem)
    (hst : st.2 = none → st.1 = 0) :
    (scanStep st a).2 = none → (scanStep st a).1 = 0 := by
  unfold scanStep
  by_cases h1 : ¬a.enabled ∨ a.next_trigger = 0
  · rw [if_pos h1]; exact hst
  · rw [if_neg h1]
    by_cases hg : st.1 = 0 ∨ a.next_trigger < st.1
    · rw [if_pos hg]; intro h; simp at h
    · rw [if_neg hg]; exact hst

theorem foldl_scanStep_snd_none (l : List AlarmItem) :
    ∀ st : Int × Option AlarmItem, (st.2 = none → st.1 = 0) →
      ((l.foldl scanStep st).2 = none ↔
        st.2 = none ∧ ∀ a ∈ l, a.enabled = false ∨ a.next_trigger = 0) := by
  induction l with
  | nil => intro st _; simp
  | cons a l ih =>
    intro st hst
    simp only [List.foldl_cons]
    by_cases h1 : ¬a.enabled ∨ a.next_trigger = 0
    · have hstep : scanStep st a = st := by unfold scanStep; rw [if_pos h1]
      rw [hstep, ih st hst]
      have h1' : a.enabled = false ∨ a.next_trigger = 0 := by
        rcases h1 with h | h
        · exact Or.inl (by simpa using h)
        · exact Or.inr h
      constructor
      · rintro ⟨h2, h3⟩
        refine ⟨h2, fun b hb => ?_⟩
        rcases List.mem_cons.mp hb with rfl | hb'
        · exact h1'
        · exact h3 b hb'
      · rintro ⟨h2, h3⟩
        exact ⟨h2, fun b hb => h3 b (List.mem_cons_of_mem _ hb)⟩
    · push_neg at h1
      constructor
      · intro hc
        have habs := foldl_scanStep_snd_absorb l _ hc
        unfold scanStep at habs
        rw [if_neg (by push_neg; exact h1)] at habs
        by_cases hg : st.1 = 0 ∨ a.next_trigger < st.1
        · rw [if_pos hg] at habs; simp at habs
        · rw [if_neg hg] at habs
          have hst1 : st.1 ≠ 0 := fun h0 => hg (Or.inl h0)
          have := hst habs
          exact absurd this hst1
      · rintro ⟨_, h3⟩
        rcases h3 a (List.mem_cons_self _ _) with h | h
        · exact absurd h1.1 (by simp [h])
        · exact absurd h h1.2

theorem relevantTriggers_eq_nil_iff (l : List AlarmItem) :
    relevantTriggers l = [] ↔
      ∀ a ∈ l, a.enabled = false ∨ a.next_trigger = 0 := by
  unfold relevantTriggers
  rw [List.map_eq_nil_iff, List.filter_eq_nil_iff]
  constructor
  · intro h a ha
    have := h a ha
    rcases hb : a.enabled with _ | _
    · exact Or.inl rfl
    · right
      by_contra hne
      exact this (by simp [hb, hne])
  · intro h a ha
    rcases h a ha with h' | h' <;> simp [h']

theorem relevantTriggers_cons_irrel (a : AlarmItem) (l : List AlarmItem)
    (h : a.enabled = false ∨ a.next_trigger = 0) :
    relevantTriggers (a :: l) = relevantTriggers l := by
  unfold relevantTriggers
  rw [List.filter_cons]
  have hb : (a.enabled && a.next_trigger != 0) = false := by
    rcases h with h | h <;> simp [h]
  rw [hb]
  simp

theorem relevantTriggers_cons_rel (a : AlarmItem) (l : List AlarmItem)
    (he : a.enabled = true) (hne : a.next_trigger ≠ 0) :
    relevantTriggers (a :: l) = a.next_trigger :: relevantTriggers l := by
  unfold relevantTriggers
  rw [List.filter_cons]
  have hb : (a.enabled && a.next_trigger != 0) = true := by simp [he, hne]
  rw [hb]
  simp

theorem foldl_scanVal_min_from (l : List AlarmItem) :
    ∀ v : Int, v ≠ 0 →
      l.foldl scanVal v ≠ 0 ∧ l.foldl scanVal v ≤ v ∧
      (l.foldl scanVal v = v ∨ l.foldl scanVal v ∈ relevantTriggers l) ∧
      ∀ x ∈ relevantTriggers l, l.foldl scanVal v ≤ x := by
  induction l with
  | nil =>
    intro v hv
    refine ⟨hv, le_refl v, Or.inl rfl, ?_⟩
    intro x hx
    simp [relevantTriggers] at hx
  | cons a l ih =>
    intro v hv
    by_cases h1 : a.enabled = true ∧ a.next_trigger ≠ 0
    · have hstep : scanVal v a = if v = 0 ∨ a.next_trigger < v then a.next_trigger else v := by
        unfold scanVal
        rw [if_neg (by simp [h1.1, h1.2])]
      have hR := relevantTriggers_cons_rel a l h1.1 h1.2
      have hv1ne : scanVal v a ≠ 0 := by
        rw [hstep]
        by_cases hg : v = 0 ∨ a.next_trigger < v
        · rw [if_pos hg]; exact h1.2
        · rw [if_neg hg]; exact hv
      have hv1lev : scanVal v a ≤ v := by
        rw [hstep]
        by_cases hg : v = 0 ∨ a.next_trigger < v
        · rw [if_pos hg]
          rcases hg with hg | hg
          · exact absurd hg hv
          · exact le_of_lt hg
        · rw [if_neg hg]
      have hv1let : scanVal v a ≤ a.next_trigger := by
        rw [hstep]
        by_cases hg : v = 0 ∨ a.next_trigger < v
        · rw [if_pos hg]
        · rw [if_neg hg]
          push_neg at hg
          exact hg.2
      obtain ⟨hne', hle', hmem', hmin'⟩ := ih (scanVal v a) hv1ne
      have hfold : (a :: l).foldl scanVal v = l.foldl scanVal (scanVal v a) := by
        simp
      refine ⟨by rw [hfold]; exact hne', by rw [hfold]; exact le_trans hle' hv1lev, ?_, ?_⟩
      · rw [hfold, hR]
        rcases hmem' with hm | hm
        · rw [hm, hstep]
          by_cases hg : v = 0 ∨ a.next_trigger < v
          · rw [if_pos hg]
            exact Or.inr (List.mem_cons_self _ _)
          · rw [if_neg hg]
            exact Or.inl rfl
        · exact Or.inr (List.mem_cons_of_mem _ hm)
      · rw [hfold, hR]
        intro x hx
        rcases List.mem_cons.mp hx with rfl | hx'
        · exact le_trans hle' hv1let
        · exact hmin' x hx'
    · have h1' : a.enabled = false ∨ a.next_trigger = 0 := by
        by_cases he : a.enabled = true
        · right
          by_contra hne
          exact h1 ⟨he, hne⟩
        · exact Or.inl (by simpa using he)
      have hstep : scanVal v a = v := by
        unfold scanVal
        rw [if_pos ?_]
        rcases h1' with h | h
        · exact Or.inl (by simp [h])
        · exact Or.inr h
      have hR := relevantTriggers_cons_irrel a l h1'
      have hfold : (a :: l).foldl scanVal v = l.foldl scanVal v := by
        simp [hstep]
      rw [hfold, hR]
      exact ih v hv

theorem foldl_scanVal_zero (l : List AlarmItem) :
    (relevantTriggers l = [] → l.foldl scanVal 0 = 0) ∧
    (relevantTriggers l ≠ [] →
      l.foldl scanVal 0 ∈ relevantTriggers l ∧
      ∀ x ∈ relevantTriggers l, l.foldl scanVal 0 ≤ x) := by
  induction l with
  | nil =>
    refine ⟨fun _ => rfl, fun h => absurd rfl h⟩
  | cons a l ih =>
    by_cases h1 : a.enabled = true ∧ a.next_trigger ≠ 0
    · have hstep : scanVal 0 a = a.next_trigger := by
        unfold scanVal
        rw [if_neg (by simp [h1.1, h1.2]), if_pos (Or.inl rfl)]
      have hR := relevantTriggers_cons_rel a l h1.1 h1.2
      have hfold : (a :: l).foldl scanVal 0 = l.foldl scanVal a.next_trigger := by
        simp [hstep]
      obtain ⟨hne', hle', hmem', hmin'⟩ := foldl_scanVal_min_from l a.next_trigger h1.2
      constructor
      · intro hnil
        rw [hR] at hnil
        exact absurd hnil (by simp)
      · intro _
        rw [hfold, hR]
        constructor
        · rcases hmem' with hm | hm
          · rw [hm]; exact List.mem_cons_self _ _
          · exact List.mem_cons_of_mem _ hm
        · intro x hx
          rcases List.mem_cons.mp hx with rfl | hx'
          · exact hle'
          · exact hmin' x hx'
    · have h1' : a.enabled = false ∨ a.next_trigger = 0 := by
        by_cases he : a.enabled = true
        · right
          by_contra hne
          exact h1 ⟨he, hne⟩
        · exact Or.inl (by simpa using he)
      have hstep : scanVal 0 a = 0 := by
        unfold scanVal
        rw [if_pos ?_]
        rcases h1' with h | h
        · exact Or.inl (by simp [h])
        · exact Or.inr h
      have hR := relevantTriggers_cons_irrel a l h1'
      have hfold : (a :: l).foldl scanVal 0 = l.foldl scanVal 0 := by
        simp [hstep]
      rw [hfold, hR]
      exact ih

/-- Master scheduler lemma: the scan in `ScheduleTimer` is Idle exactly on an
empty relevant set and otherwise targets the minimum relevant trigger. -/
theorem ScheduleTimer_consistent (l : List AlarmItem) : SchedulerConsistent l := by
  have hfst := foldl_scanStep_fst l (0, none)
  have hsndiff := foldl_scanStep_snd_none l (0, none) (fun _ => rfl)
  constructor
  · intro hnil
    have hall := (relevantTriggers_eq_nil_iff l).mp hnil
    have h2 : (l.foldl scanStep (0, none)).2 = none := hsndiff.mpr ⟨rfl, hall⟩
    unfold ScheduleTimer
    rcases hfold : l.foldl scanStep (0, none) with ⟨s, o⟩
    rw [hfold] at h2
    simp only at h2
    subst h2
    rfl
  · intro hne
    have h2 : (l.foldl scanStep (0, none)).2 ≠ none := by
      intro hc
      obtain ⟨_, hall⟩ := hsndiff.mp hc
      exact hne ((relevantTriggers_eq_nil_iff l).mpr hall)
    obtain ⟨hmem, hmin⟩ := (foldl_scanVal_zero l).2 hne
    refine ⟨l.foldl scanVal 0, ?_, hmem, hmin⟩
    unfold ScheduleTimer
    rcases hfold : l.foldl scanStep (0, none) with ⟨s, o⟩
    rw [hfold] at h2 hfst
    cases o with
    | none => exact absurd rfl h2
    | some a =>
      simp only at hfst ⊢
      rw [hfst]

/-- A disabled record recalculates to trigger 0 (first line of
`RecalculateNextTrigger`). -/
theorem recalc_of_disabled (item : AlarmItem) (now : Int)
    (h : item.enabled = false) :
    RecalculateNextTrigger item now = { item with next_trigger := 0 } := by
  unfold RecalculateNextTrigger
  rw [if_pos (by simp [h])]

/-- Whatever `RecalculateNextTrigger` produces, a disabled output carries
trigger 0. -/
theorem recalc_disabled_zero (item : AlarmItem) (now : Int) :
    (RecalculateNextTrigger item now).enabled = false →
    (RecalculateNextTrigger item now).next_trigger = 0 := by
  by_cases he : item.enabled
  · cases ht : item.type with
    | OneShot =>
      simp only [RecalculateNextTrigger, ht, he]
      by_cases hle :
          MakeTimeUTC item.year item.month item.day item.hour item.minute item.second ≤ now
      · simp [hle]
      · simp [hle, he]
    | Daily => simp [RecalculateNextTrigger, ht, he]
    | Weekly => simp [RecalculateNextTrigger, ht, he]
    | Monthly => simp [RecalculateNextTrigger, ht, he]
    | Interval =>
      simp only [RecalculateNextTrigger, ht, he]
      by_cases hc : item.next_trigger = 0 ∨ item.next_trigger ≤ now
      · simp [hc, he]
      · simp [hc, he]
  · have he' : item.enabled = false := by simpa using he
    rw [recalc_of_disabled item now he']
    intro _; rfl

/-- A due (hence enabled) record advanced by firing keeps the
disabled-implies-zero property. -/
theorem fireAdvance_disabled_zero (a : AlarmItem) (now : Int)
    (he : a.enabled = true) :
    (fireAdvance a now).enabled = false → (fireAdvance a now).next_trigger = 0 := by
  cases ht : a.type with
  | OneShot => simp [fireAdvance, ht]
  | Interval => simp [fireAdvance, ht, he]
  | Daily => simp only [fireAdvance, ht]; exact recalc_disabled_zero a (now + 1)
  | Weekly => simp only [fireAdvance, ht]; exact recalc_disabled_zero a (now + 1)
  | Monthly => simp only [fireAdvance, ht]; exact recalc_disabled_zero a (now + 1)

theorem enableFirst_mem {l : List AlarmItem} {id : Int} {en : Bool} {now : Int}
    {b : AlarmItem} (hb : b ∈ (enableFirst l id en now).1) :
    b ∈ l ∨
      ∃ a ∈ l, b = (if en then RecalculateNextTrigger { a with enabled := true } now
        else { a with enabled := false, next_trigger := 0 }) := by
  induction l with
  | nil => simp [enableFirst] at hb
  | cons a l ih =>
    unfold enableFirst at hb
    by_cases hid : a.id = id
    · rw [if_pos hid] at hb
      rcases List.mem_cons.mp hb with rfl | hb'
      · exact Or.inr ⟨a, List.mem_cons_self _ _, rfl⟩
      · exact Or.inl (List.mem_cons_of_mem _ hb')
    · rw [if_neg hid] at hb
      rcases List.mem_cons.mp hb with rfl | hb'
      · exact Or.inl (List.mem_cons_self _ _)
      · rcases ih hb' with h | ⟨c, hc, hcb⟩
        · exact Or.inl (List.mem_cons_of_mem _ h)
        · exact Or.inr ⟨c, List.mem_cons_of_mem _ hc, hcb⟩

theorem enableFirst_found {l : List AlarmItem} {id : Int} {now : Int}
    (hf : (enableFirst l id false now).2 = true) :
    ∃ b ∈ (enableFirst l id false now).1,
      b.id = id ∧ b.enabled = false ∧ b.next_trigger = 0 := by
  induction l with
  | nil => simp [enableFirst] at hf
  | cons a l ih =>
    unfold enableFirst at hf ⊢
    by_cases hid : a.id = id
    · rw [if_pos hid] at hf ⊢
      exact ⟨{ a with enabled := false, next_trigger := 0 },
        List.mem_cons_self _ _, hid, rfl, rfl⟩
    · rw [if_neg hid] at hf ⊢
      simp only at hf
      obtain ⟨b, hb, hprops⟩ := ih hf
      exact ⟨b, List.mem_cons_of_mem _ hb, hprops⟩

theorem disabledZero_add (store : AlarmStore) (tpl : AlarmItem) (now : Int)
    (h : DisabledZero store.alarms) :
    DisabledZero (AddAlarm store tpl now).1.alarms := by
  intro a ha hdis
  unfold AddAlarm at ha
  simp only at ha
  rcases List.mem_append.mp ha with h1 | h1
  · exact h a h1 hdis
  · rw [List.mem_singleton.mp h1] at hdis ⊢
    exact recalc_disabled_zero _ _ hdis

theorem disabledZero_remove (store : AlarmStore) (id : Int)
    (h : DisabledZero store.alarms) :
    DisabledZero (RemoveAlarm store id).1.alarms := by
  intro a ha hdis
  unfold RemoveAlarm at ha
  by_cases hc : store.alarms.any (fun a => a.id = id)
  · rw [if_pos hc] at ha
    simp only at ha
    exact h a (List.mem_of_mem_filter ha) hdis
  · rw [if_neg hc] at ha
    exact h a ha hdis

theorem disabledZero_enable (store : AlarmStore) (id : Int) (en : Bool)
    (now : Int) (h : DisabledZero store.alarms) :
    DisabledZero (EnableAlarm store id en now).1.alarms := by
  intro a ha hdis
  unfold EnableAlarm at ha
  simp only at ha
  rcases enableFirst_mem ha with h1 | ⟨c, hc, hcb⟩
  · exact h a h1 hdis
  · cases en with
    | true =>
      rw [if_pos rfl] at hcb
      rw [hcb] at hdis ⊢
      exact recalc_disabled_zero _ _ hdis
    | false =>
      rw [if_neg (by simp)] at hcb
      rw [hcb]

theorem disabledZero_clear (store : AlarmStore) :
    DisabledZero (ClearAlarms store).alarms := by
  intro a ha
  simp [ClearAlarms] at ha

theorem disabledZero_fire (alarms : List AlarmItem) (now : Int)
    (h : DisabledZero alarms) : DisabledZero (OnTimerFired alarms now) := by
  intro b hb hdis
  unfold OnTimerFired at hb
  obtain ⟨a, ha, hab⟩ := List.mem_map.mp hb
  by_cases hc : a.enabled ∧ a.next_trigger ≠ 0 ∧ a.next_trigger ≤ now
  · rw [if_pos hc] at hab
    rw [← hab] at hdis ⊢
    exact fireAdvance_disabled_zero a now hc.1 hdis
  · rw [if_neg hc] at hab
    rw [← hab] at hdis ⊢
    exact h a ha hdis

/-- C1: after every store mutation (`AddAlarm`, `RemoveAlarm`, `EnableAlarm`,
`ClearAlarms`) and after every firing (`OnTimerFired`), the scheduler re-arm
scan leaves the scheduler Idle exactly when no enabled alarm has a nonzero
`next_trigger`, and otherwise arms the single one-shot timer targeting the
minimum such `next_trigger`. -/
theorem C1_scheduler_min_after_ops (store : AlarmStore) (tpl : AlarmItem)
    (now rid eid : Int) (en : Bool) (alarms : List AlarmItem) :
    SchedulerConsistent (AddAlarm store tpl now).1.alarms ∧
    SchedulerConsistent (RemoveAlarm store rid).1.alarms ∧
    SchedulerConsistent (EnableAlarm store eid en now).1.alarms ∧
    SchedulerConsistent (ClearAlarms store).alarms ∧
    SchedulerConsistent (OnTimerFired alarms now) :=
  ⟨ScheduleTimer_consistent _, ScheduleTimer_consistent _,
   ScheduleTimer_consistent _, ScheduleTimer_consistent _,
   ScheduleTimer_consistent _⟩

/-- C9: a disabled record always has `next_trigger = 0`: recalculating a
disabled record yields 0, disabling through `EnableAlarm` zeroes the trigger
of the matched record, the invariant is preserved by every store operation
and by firing, and the scheduler scan only ever selects an enabled record. -/
theorem C9_disabled_zero_invariant :
    (∀ (item : AlarmItem) (now : Int), item.enabled = false →
      (RecalculateNextTrigger item now).next_trigger = 0) ∧
    (∀ (store : AlarmStore) (id now : Int),
      (EnableAlarm store id false now).2 = true →
      ∃ a ∈ (EnableAlarm store id false now).1.alarms,
        a.id = id ∧ a.enabled = false ∧ a.next_trigger = 0) ∧
    (∀ (store : AlarmStore) (tpl : AlarmItem) (now : Int),
      DisabledZero store.alarms → DisabledZero (AddAlarm store tpl now).1.alarms) ∧
    (∀ (store : AlarmStore) (id : Int),
      DisabledZero store.alarms → DisabledZero (RemoveAlarm store id).1.alarms) ∧
    (∀ (store : AlarmStore) (id : Int) (en : Bool) (now : Int),
      DisabledZero store.alarms →
      DisabledZero (EnableAlarm store id en now).1.alarms) ∧
    (∀ store : AlarmStore, DisabledZero (ClearAlarms store).alarms) ∧
    (∀ (alarms : List AlarmItem) (now : Int),
      DisabledZero alarms → DisabledZero (OnTimerFired alarms now)) ∧
    (∀ (alarms : List AlarmItem) (m : Int), ScheduleTimer alarms = some m →
      ∃ a ∈ alarms, a.enabled = true ∧ a.next_trigger = m) := by
  refine ⟨?_, ?_, disabledZero_add, disabledZero_remove, disabledZero_enable,
    disabledZero_clear, disabledZero_fire, ?_⟩
  · intro item now h
    rw [recalc_of_disabled item now h]
  · intro store id now hf
    unfold EnableAlarm at hf ⊢
    simp only at hf ⊢
    exact enableFirst_found hf
  · intro alarms m hm
    have hcons := ScheduleTimer_consistent alarms
    have hne : relevantTriggers alarms ≠ [] := by
      intro hnil
      rw [hcons.1 hnil] at hm
      exact Option.noConfusion hm
    obtain ⟨m', hm', hmem, _⟩ := hcons.2 hne
    rw [hm] at hm'
    obtain rfl : m = m' := Option.some_inj.mp hm'
    unfold relevantTriggers at hmem
    obtain ⟨a, ha, hat⟩ := List.mem_map.mp hmem
    have hfa := List.mem_filter.mp ha
    refine ⟨a, hfa.1, ?_, hat⟩
    have hb := hfa.2
    simp only [Bool.and_eq_true] at hb
    exact hb.1

/-- Witness for C9: a concrete disabled record recalculates to trigger 0. -/
theorem C9_witness :
    (RecalculateNextTrigger { defaultAlarmItem with enabled := false } 5).next_trigger
      = 0 :=
  C9_disabled_zero_invariant.1 { defaultAlarmItem with enabled := false } 5 rfl

theorem leapYearI_eq_specLeap (y : Int) : leapYearI y = specLeap y := by
  unfold leapYearI specLeap
  have h4 : (y.tmod 4 == 0) = decide ((4 : Int) ∣ y) := by
    by_cases h : (4 : Int) ∣ y
    · simp [h, Int.tmod_eq_zero_of_dvd h]
    · have hne : y.tmod 4 ≠ 0 := fun hc => h (Int.dvd_of_tmod_eq_zero hc)
      simp [h, hne]
  have h100 : (y.tmod 100 == 0) = decide ((100 : Int) ∣ y) := by
    by_cases h : (100 : Int) ∣ y
    · simp [h, Int.tmod_eq_zero_of_dvd h]
    · have hne : y.tmod 100 ≠ 0 := fun hc => h (Int.dvd_of_tmod_eq_zero hc)
      simp [h, hne]
  have h400 : (y.tmod 400 == 0) = decide ((400 : Int) ∣ y) := by
    by_cases h : (400 : Int) ∣ y
    · simp [h, Int.tmod_eq_zero_of_dvd h]
    · have hne : y.tmod 400 ≠ 0 := fun hc => h (Int.dvd_of_tmod_eq_zero hc)
      simp [h, hne]
  simp only [bne]
  rw [h4, h100, h400]
  by_cases g4 : (4 : Int) ∣ y <;> by_cases g100 : (100 : Int) ∣ y <;>
    by_cases g400 : (400 : Int) ∣ y <;> simp [g4, g100, g400]

theorem step_term_eq_specMonthLen (y : Int) (n : Nat) :
    mdaysTable.getD n 0 + (if n = 1 ∧ leapYearI y then 1 else 0) =
      specMonthLen y (n + 1) := by
  rw [leapYearI_eq_specLeap]
  rcases n with _ | _ | _ | _ | _ | _ | _ | _ | _ | _ | _ | _ | n
  all_goals
    simp only [mdaysTable, specMonthLen, List.getD, List.get?]
  all_goals
    first
    | (cases hl : specLeap y <;> simp [hl])
    | simp
    | (norm_num [List.getD])

theorem monthPrefixDays_succ_eq (y : Int) (n : Nat) :
    monthPrefixDays y (n + 1) = specMonthSum y (n + 1) := by
  induction n with
  | zero => rfl
  | succ n ih =>
    unfold monthPrefixDays at ih ⊢
    rw [show n + 1 + 1 - 1 = (n + 1 - 1) + 1 by omega, List.range_succ,
      List.foldl_append]
    simp only [List.foldl_cons, List.foldl_nil]
    rw [ih, show n + 1 - 1 = n by omega]
    have hstep := step_term_eq_specMonthLen y n
    show specMonthSum y (n + 1) + mdaysTable.getD n 0 +
        (if n = 1 ∧ leapYearI y then 1 else 0) = specMonthSum y (n + 2)
    have hS : specMonthSum y (n + 2) =
        specMonthSum y (n + 1) + specMonthLen y (n + 1) := rfl
    omega

theorem monthPrefixDays_eq_specMonthSum (y : Int) (m : Nat) :
    monthPrefixDays y m = specMonthSum y m := by
  cases m with
  | zero => rfl
  | succ m => exact monthPrefixDays_succ_eq y m

theorem daysSince1970_eq_specYearSum (year : Int) :
    daysSince1970 year = specYearSum (year - 1970).toNat := by
  unfold daysSince1970
  generalize (year - 1970).toNat = n
  induction n with
  | zero => rfl
  | succ n ih =>
    rw [List.range_succ, List.foldl_append]
    simp only [List.foldl_cons, List.foldl_nil]
    rw [ih]
    have hS : specYearSum (n + 1) =
        specYearSum n + (if specLeap (1970 + (n : Int)) then 366 else 365) := rfl
    rw [hS, leapYearI_eq_specLeap]
    cases hl : specLeap (1970 + (n : Int)) <;> simp [hl] <;> omega

/-- `timegm_compat` in closed form: Gregorian day count (with the clamped
month) times 86400 plus the time of day. -/
theorem timegm_compat_clamp_eq (year month day hour minute second : Int) :
    timegm_compat year month day hour minute second =
      (daysSince1970 year + monthPrefixDays year (clampMonth month).toNat +
        (day - 1)) * 86400 + hour * 3600 + minute * 60 + second := by
  simp only [timegm_compat, clampMonth]
  by_cases h0 : month ≤ 0
  · simp [h0]
  · by_cases h12 : 12 < month
    · simp [h0, h12]
    · simp [h0, h12]

/-- Shape of `RecalculateNextTrigger` on an enabled OneShot record. -/
theorem recalc_oneShot_eq (item : AlarmItem) (now : Int)
    (he : item.enabled = true) (ht : item.type = AlarmType.OneShot) :
    RecalculateNextTrigger item now =
      (if MakeTimeUTC item.year item.month item.day item.hour item.minute
          item.second ≤ now
       then { item with enabled := false, next_trigger := 0 }
       else { item with next_trigger := MakeTimeUTC item.year item.month item.day item.hour item.minute item.second }) := by
  unfold RecalculateNextTrigger
  rw [he, ht]
  rfl

/-- Shape of `RecalculateNextTrigger` on an enabled Daily record. -/
theorem recalc_daily_eq (item : AlarmItem) (now : Int)
    (he : item.enabled = true) (ht : item.type = AlarmType.Daily) :
    RecalculateNextTrigger item now =
      { item with next_trigger := recalcDaily item now } := by
  unfold RecalculateNextTrigger
  rw [he, ht]
  rfl

/-- Shape of `RecalculateNextTrigger` on an enabled Weekly record. -/
theorem recalc_weekly_eq (item : AlarmItem) (now : Int)
    (he : item.enabled = true) (ht : item.type = AlarmType.Weekly) :
    RecalculateNextTrigger item now =
      { item with next_trigger := recalcWeekly item now } := by
  unfold RecalculateNextTrigger
  rw [he, ht]
  rfl

/-- Shape of `RecalculateNextTrigger` on an enabled Monthly record. -/
theorem recalc_monthly_eq (item : AlarmItem) (now : Int)
    (he : item.enabled = true) (ht : item.type = AlarmType.Monthly) :
    RecalculateNextTrigger item now =
      { item with next_trigger := recalcMonthly item now } := by
  unfold RecalculateNextTrigger
  rw [he, ht]
  rfl

/-- Shape of `RecalculateNextTrigger` on an enabled Interval record. -/
theorem recalc_interval_eq (item : AlarmItem) (now : Int)
    (he : item.enabled = true) (ht : item.type = AlarmType.Interval) :
    RecalculateNextTrigger item now =
      (if item.next_trigger = 0 ∨ item.next_trigger ≤ now then
        { item with next_trigger :=
          now + (if item.interval_seconds ≤ 0 then 60 else item.interval_seconds) }
      else item) := by
  unfold RecalculateNextTrigger
  rw [he, ht]
  rfl

set_option maxRecDepth 8000 in
/-- C7: `timegm_compat` clamps an out-of-range month (≤0 or >12) into
`[1,12]` before counting days — month 13 does not roll into the next year —
while day-of-month is never clamped (the result is linear in `day`), and the
result equals the Gregorian day count since 1970-01-01 (leap rule
`div4 && !div100 || div400`) times 86400 plus `hour*3600 + minute*60 +
second`; `MakeTimeUTC` is exactly `timegm_compat`. -/
theorem C7_timegm_clamp_and_formula (year month day hour minute second : Int) :
    (12 < month → timegm_compat year month day hour minute second =
      timegm_compat year 12 day hour minute second) ∧
    (month ≤ 0 → timegm_compat year month day hour minute second =
      timegm_compat year 1 day hour minute second) ∧
    (timegm_compat 2025 13 1 0 0 0 = timegm_compat 2025 12 1 0 0 0 ∧
      timegm_compat 2025 13 1 0 0 0 ≠ timegm_compat 2026 1 1 0 0 0) ∧
    (timegm_compat year month day hour minute second =
      timegm_compat year month 1 hour minute second + (day - 1) * 86400) ∧
    (timegm_compat year month day hour minute second =
      gregorianDaysSpec year (clampMonth month) day * 86400 +
        hour * 3600 + minute * 60 + second) ∧
    MakeTimeUTC year month day hour minute second =
      timegm_compat year month day hour minute second := by
  refine ⟨?_, ?_, ⟨by decide, by decide⟩, ?_, ?_, rfl⟩
  · intro h
    rw [timegm_compat_clamp_eq year month, timegm_compat_clamp_eq year 12]
    have h1 : clampMonth month = 12 := by
      unfold clampMonth
      rw [if_neg (by omega), if_pos h]
    have h2 : clampMonth 12 = 12 := by norm_num [clampMonth]
    rw [h1, h2]
  · intro h
    rw [timegm_compat_clamp_eq year month, timegm_compat_clamp_eq year 1]
    have h1 : clampMonth month = 1 := by
      unfold clampMonth
      rw [if_pos h]
    have h2 : clampMonth 1 = 1 := by norm_num [clampMonth]
    rw [h1, h2]
  · rw [timegm_compat_clamp_eq year month day,
      timegm_compat_clamp_eq year month 1]
    ring
  · rw [timegm_compat_clamp_eq]
    unfold gregorianDaysSpec
    rw [monthPrefixDays_eq_specMonthSum, daysSince1970_eq_specYearSum]

/-- Witness for C7: month 14 is clamped to 12 at a concrete input. -/
theorem C7_witness :
    timegm_compat 2025 14 5 1 2 3 = timegm_compat 2025 12 5 1 2 3 :=
  (C7_timegm_clamp_and_formula 2025 14 5 1 2 3).1 (by norm_num)

/-- C4: an enabled OneShot record whose absolute instant is ≤ now lapses
(`enabled := false`, `next_trigger := 0`); otherwise it stays enabled with
`next_trigger` equal to that instant. -/
theorem C4_oneshot_lapse (item : AlarmItem) (now : Int)
    (he : item.enabled = true) (ht : item.type = AlarmType.OneShot) :
    (MakeTimeUTC item.year item.month item.day item.hour item.minute item.second
        ≤ now →
      (RecalculateNextTrigger item now).enabled = false ∧
      (RecalculateNextTrigger item now).next_trigger = 0) ∧
    (now <
        MakeTimeUTC item.year item.month item.day item.hour item.minute
          item.second →
      (RecalculateNextTrigger item now).enabled = true ∧
      (RecalculateNextTrigger item now).next_trigger =
        MakeTimeUTC item.year item.month item.day item.hour item.minute
          item.second) := by
  rw [recalc_oneShot_eq item now he ht]
  constructor
  · intro hle
    rw [if_pos hle]
    exact ⟨rfl, rfl⟩
  · intro hlt
    rw [if_neg (not_le.mpr hlt)]
    exact ⟨he, rfl⟩

set_option maxRecDepth 8000 in
/-- Witness for C4: a concrete 2025-01-01 one-shot lapses at a later now. -/
theorem C4_witness :
    (RecalculateNextTrigger oneShotJan2025 1800000000).enabled = false ∧
    (RecalculateNextTrigger oneShotJan2025 1800000000).next_trigger = 0 :=
  (C4_oneshot_lapse oneShotJan2025 1800000000 rfl rfl).1 (by decide)

/-- C6: Interval recalculation resets an unscheduled (0) or elapsed (≤ now)
trigger to `now + effective_interval` (`interval_seconds` if ≥ 1, else 60),
leaves a still-pending record entirely unchanged (hence is idempotent), and
firing advances a due interval record to fire time + effective interval; an
interval-30 alarm added at `T` and fired at `T+30` gets trigger `T+60`. -/
theorem C6_interval_semantics (item : AlarmItem) (now : Int) (hnow : 0 ≤ now)
    (he : item.enabled = true) (ht : item.type = AlarmType.Interval) :
    (item.next_trigger = 0 ∨ item.next_trigger ≤ now →
      RecalculateNextTrigger item now = { item with next_trigger :=
        now + (if 1 ≤ item.interval_seconds then item.interval_seconds else 60) }) ∧
    (now < item.next_trigger → RecalculateNextTrigger item now = item) ∧
    (now < item.next_trigger →
      RecalculateNextTrigger (RecalculateNextTrigger item now) now =
        RecalculateNextTrigger item now) ∧
    ((fireAdvance item now).next_trigger =
      now + (if 1 ≤ item.interval_seconds then item.interval_seconds else 60)) ∧
    (∀ T : Int,
      (RecalculateNextTrigger interval30 T).next_trigger = T + 30 ∧
      (fireAdvance (RecalculateNextTrigger interval30 T) (T + 30)).next_trigger =
        T + 60) := by
  have heff : (if item.interval_seconds ≤ 0 then 60 else item.interval_seconds) =
      (if 1 ≤ item.interval_seconds then item.interval_seconds else 60) := by
    by_cases hc : item.interval_seconds ≤ 0
    · rw [if_pos hc, if_neg (by omega)]
    · rw [if_neg hc, if_pos (by omega)]
  have hid : now < item.next_trigger → RecalculateNextTrigger item now = item := by
    intro hlt
    rw [recalc_interval_eq item now he ht, if_neg (by omega)]
  refine ⟨?_, hid, ?_, ?_, ?_⟩
  · intro hg
    rw [recalc_interval_eq item now he ht, if_pos hg, heff]
  · intro hlt
    rw [hid hlt, hid hlt]
  · have h4 : (fireAdvance item now).next_trigger =
        now + (if item.interval_seconds > 0 then item.interval_seconds else 60) := by
      unfold fireAdvance
      rw [ht]
    rw [h4]
    by_cases hc : item.interval_seconds > 0
    · rw [if_pos hc, if_pos (by omega)]
    · rw [if_neg hc, if_neg (by omega)]
  · intro T
    refine ⟨rfl, ?_⟩
    have h5 : (fireAdvance (RecalculateNextTrigger interval30 T) (T + 30)).next_trigger
        = T + 30 + 30 := rfl
    rw [h5]
    ring

/-- Witness for C6: an interval-30 alarm with elapsed trigger resets. -/
theorem C6_witness :
    RecalculateNextTrigger interval30 100 =
      { interval30 with next_trigger := 130 } := by
  rw [(C6_interval_semantics interval30 100 (by norm_num) rfl rfl).1 (Or.inl rfl)]
  decide

theorem parse_toString (t : AlarmType) :
    ParseAlarmType (AlarmTypeToString t) = t := by
  cases t <;> rfl

/-- Round-tripping one enabled record through the persisted format restores
every field except `next_trigger` (always 0 after load) and
`interval_seconds`, which survives only for `Interval`-typed alarms. -/
theorem loadAlarm_saveAlarm (a : AlarmItem) (hmask : a.weekdays_mask < 65536) :
    loadAlarm (saveAlarm a) =
      { a with
        next_trigger := 0,
        interval_seconds :=
          if a.type = AlarmType.Interval then a.interval_seconds else 0 } := by
  unfold loadAlarm saveAlarm defaultAlarmItem
  have hw : (((a.weekdays_mask : Int)) % 65536).toNat = a.weekdays_mask := by
    have : ((a.weekdays_mask : Int)) % 65536 = ((a.weekdays_mask % 65536 : Nat) : Int) := by
      push_cast
      rfl
    rw [this, Int.toNat_natCast, Nat.mod_eq_of_lt hmask]
  by_cases hI : a.type = AlarmType.Interval
  · simp [hI, parse_toString, hw]
  · simp [hI, parse_toString, hw]

set_option maxRecDepth 8000 in
/-- Counterexample to C8 as stated: an enabled Daily alarm whose
`interval_seconds` is 7 loads back with `interval_seconds = 0`, so the
round-trip does not preserve the full claimed tuple. -/
theorem C8_counterexample :
    ¬ ((LoadFromSettings (SaveToSettings [dailyInterval7])).map alarmTuple =
      ([dailyInterval7].filter (fun a => a.enabled)).map alarmTuple) := by
  decide

/-- C8 (amended): save followed by load reproduces, for each enabled alarm
(disabled ones are dropped), the same record up to `next_trigger := 0` and up
to `interval_seconds`, which is preserved only for `Interval`-typed alarms
and loads as 0 otherwise (masks are 16-bit, as the `uint16_t` field
guarantees). -/
theorem C8_roundtrip_amended (alarms : List AlarmItem)
    (hmask : ∀ a ∈ alarms, a.weekdays_mask < 65536) :
    LoadFromSettings (SaveToSettings alarms) =
      (alarms.filter (fun a => a.enabled)).map (fun a =>
        { a with
          next_trigger := 0,
          interval_seconds :=
            if a.type = AlarmType.Interval then a.interval_seconds else 0 }) := by
  unfold LoadFromSettings SaveToSettings
  rw [List.map_map]
  apply List.map_congr_left
  intro a ha
  have hmem := List.mem_of_mem_filter ha
  exact loadAlarm_saveAlarm a (hmask a hmem)

/-- Witness for C8 (amended): the round-trip at a concrete one-element
store. -/
theorem C8_witness :
    LoadFromSettings (SaveToSettings [interval30]) =
      ([interval30].filter (fun a => a.enabled)).map (fun a =>
        { a with
          next_trigger := 0,
          interval_seconds :=
            if a.type = AlarmType.Interval then a.interval_seconds else 0 }) :=
  C8_roundtrip_amended [interval30] (by decide)


/-! ### The civil decomposition inverts the day count -/

theorem yearLen_ge (y : Nat) : 365 ≤ yearLen y := by
  cases h : isLeapN y <;> simp [yearLen, h]

theorem sumYearLens_shift (y c : Nat) :
    sumYearLens y (c + 1) = yearLen y + sumYearLens (y + 1) c := by
  induction c with
  | zero => simp [sumYearLens]
  | succ c ih =>
    have h1 : sumYearLens y (c + 2) =
        sumYearLens y (c + 1) + yearLen (y + (c + 1)) := rfl
    have h2 : sumYearLens (y + 1) (c + 1) =
        sumYearLens (y + 1) c + yearLen (y + 1 + c) := rfl
    rw [h1, ih, h2, show y + 1 + c = y + (c + 1) by omega]
    omega

theorem findYear_acc : ∀ (fuel y rem : Nat),
    ∃ c, findYear fuel y rem = (y + c, rem - sumYearLens y c) ∧
      sumYearLens y c ≤ rem := by
  intro fuel
  induction fuel with
  | zero =>
    intro y rem
    exact ⟨0, by simp [findYear, sumYearLens], by simp [sumYearLens]⟩
  | succ fuel ih =>
    intro y rem
    by_cases h : rem < yearLen y
    · exact ⟨0, by simp [findYear, h, sumYearLens], by simp [sumYearLens]⟩
    · obtain ⟨c, hc, hle⟩ := ih (y + 1) (rem - yearLen y)
      refine ⟨c + 1, ?_, ?_⟩
      · unfold findYear
        rw [if_neg h, hc, sumYearLens_shift]
        have e1 : y + 1 + c = y + (c + 1) := by omega
        have e2 : rem - yearLen y - sumYearLens (y + 1) c =
            rem - (yearLen y + sumYearLens (y + 1) c) := by omega
        rw [e1, e2]
      · rw [sumYearLens_shift]
        omega

theorem findYear_complete : ∀ (fuel y rem : Nat), rem ≤ 365 * fuel →
    (findYear fuel y rem).2 < yearLen (findYear fuel y rem).1 := by
  intro fuel
  induction fuel with
  | zero =>
    intro y rem h
    have h0 : rem = 0 := by omega
    subst h0
    have := yearLen_ge y
    simp [findYear]
    omega
  | succ fuel ih =>
    intro y rem h
    unfold findYear
    by_cases hlt : rem < yearLen y
    · rw [if_pos hlt]
      simpa using hlt
    · rw [if_neg hlt]
      apply ih
      have := yearLen_ge y
      omega

theorem monthLens_sum (y : Nat) : (monthLens y).sum = yearLen y := by
  cases h : isLeapN y <;> simp [monthLens, yearLen, h]

theorem monthLens_length (y : Nat) : (monthLens y).length = 12 := rfl

theorem monthLens_getD_le (y : Nat) (j : Nat) : (monthLens y).getD j 0 ≤ 31 := by
  cases h : isLeapN y <;>
    rcases j with _ | _ | _ | _ | _ | _ | _ | _ | _ | _ | _ | _ | j <;>
      simp [monthLens, h, List.getD]
  all_goals omega

theorem findMonth_acc : ∀ (ls : List Nat) (m rem : Nat), rem < ls.sum →
    ∃ j, j < ls.length ∧
      findMonth ls m rem = (m + j, rem - (ls.take j).sum) ∧
      (ls.take j).sum ≤ rem ∧ rem - (ls.take j).sum < ls.getD j 0 := by
  intro ls
  induction ls with
  | nil =>
    intro m rem h
    simp at h
  | cons L ls ih =>
    intro m rem h
    by_cases hlt : rem < L
    · exact ⟨0, by simp, by simp [findMonth, hlt], by simp,
        by simpa [List.getD] using hlt⟩
    · have h2 : rem - L < ls.sum := by
        simp only [List.sum_cons] at h
        omega
      obtain ⟨j, hj, hfm, hle, hrem⟩ := ih (m + 1) (rem - L) h2
      refine ⟨j + 1, by simpa using hj, ?_, ?_, ?_⟩
      · unfold findMonth
        rw [if_neg hlt, hfm]
        have e1 : m + 1 + j = m + (j + 1) := by omega
        have e2 : rem - L - (ls.take j).sum =
            rem - ((L :: ls).take (j + 1)).sum := by
          simp only [List.take_succ_cons, List.sum_cons]
          omega
        rw [e1, e2]
      · simp only [List.take_succ_cons, List.sum_cons]
        omega
      · simpa only [List.take_succ_cons, List.sum_cons, List.getD_cons_succ,
          Nat.sub_sub] using hrem

theorem leapYearI_natCast (y : Nat) : leapYearI (y : Int) = isLeapN y := by
  unfold leapYearI isLeapN
  have h : ∀ b : Nat, 0 < b →
      ((y : Int)).tmod ((b : Nat) : Int) = ((y % b : Nat) : Int) := by
    intro b _
    rw [Int.tmod_eq_emod (Int.natCast_nonneg y) (Int.natCast_nonneg b)]
    push_cast
    rfl
  have e : ∀ b : Nat, 0 < b → (((y : Int)).tmod (b : Int) == 0) = (y % b == 0) := by
    intro b hb
    rw [h b hb]
    by_cases hz : y % b = 0
    · simp [hz]
    · have hz' : ((y % b : Nat) : Int) ≠ 0 := by exact_mod_cast hz
      simp [hz, hz']
      intro hd
      exact hz (Nat.dvd_iff_mod_eq_zero.mp (by exact_mod_cast hd))
  simp only [bne]
  rw [show ((4 : Int)) = (((4 : Nat)) : Int) by norm_num,
    show ((100 : Int)) = (((100 : Nat)) : Int) by norm_num,
    show ((400 : Int)) = (((400 : Nat)) : Int) by norm_num,
    e 4 (by norm_num), e 100 (by norm_num), e 400 (by norm_num)]

theorem specLeap_natCast (y : Nat) : specLeap (y : Int) = isLeapN y := by
  rw [← leapYearI_eq_specLeap, leapYearI_natCast]

theorem daysFold_eq_sumYearLens (c : Nat) :
    (List.range c).foldl
      (fun (acc : Int) (k : Nat) =>
        acc + 365 + (if leapYearI (1970 + (k : Int)) then 1 else 0)) 0
      = (sumYearLens 1970 c : Int) := by
  induction c with
  | zero => rfl
  | succ c ih =>
    rw [List.range_succ, List.foldl_append]
    simp only [List.foldl_cons, List.foldl_nil]
    rw [ih]
    have hb : leapYearI (1970 + (c : Int)) = isLeapN (1970 + c) := by
      rw [show (1970 + (c : Int)) = (((1970 + c : Nat)) : Int) by push_cast; ring]
      exact leapYearI_natCast (1970 + c)
    rw [hb]
    have hS : sumYearLens 1970 (c + 1) =
        sumYearLens 1970 c + yearLen (1970 + c) := rfl
    rw [hS]
    unfold yearLen
    cases hl : isLeapN (1970 + c) <;> simp [hl] <;> push_cast <;> ring

theorem daysSince1970_year (y : Nat) (hy : 1970 ≤ y) :
    daysSince1970 (y : Int) = (sumYearLens 1970 (y - 1970) : Int) := by
  unfold daysSince1970
  have harg : ((y : Int) - 1970).toNat = y - 1970 := by omega
  rw [harg]
  exact daysFold_eq_sumYearLens (y - 1970)

theorem specMonthSum_take (y : Nat) (j : Nat) (hj : j < 12) :
    specMonthSum (y : Int) (j + 1) = ((((monthLens y).take j).sum : Nat) : Int) := by
  have hb : specLeap (y : Int) = isLeapN y := specLeap_natCast y
  interval_cases j <;> cases hl : isLeapN y <;>
    simp [specMonthSum, specMonthLen, monthLens, hb, hl] <;> norm_num

theorem monthPrefixDays_take (y : Nat) (j : Nat) (hj : j < 12) :
    monthPrefixDays (y : Int) (j + 1) = ((((monthLens y).take j).sum : Nat) : Int) := by
  rw [monthPrefixDays_eq_specMonthSum]
  exact specMonthSum_take y j hj

theorem civilFromDays_spec (n : Nat) :
    1970 ≤ (civilFromDays n).1 ∧
    1 ≤ (civilFromDays n).2.1 ∧ (civilFromDays n).2.1 ≤ 12 ∧
    1 ≤ (civilFromDays n).2.2 ∧ (civilFromDays n).2.2 ≤ 31 ∧
    daysSince1970 (((civilFromDays n).1 : Nat) : Int) +
      monthPrefixDays (((civilFromDays n).1 : Nat) : Int) (civilFromDays n).2.1 +
      ((((civilFromDays n).2.2 : Nat) : Int) - 1) = (n : Int) := by
  obtain ⟨cy, hfy, hSy⟩ := findYear_acc (n / 365 + 1) 1970 n
  have hfuel : n ≤ 365 * (n / 365 + 1) := by omega
  have hcomp := findYear_complete (n / 365 + 1) 1970 n hfuel
  rw [hfy] at hcomp
  simp only at hcomp
  have hsum : n - sumYearLens 1970 cy < (monthLens (1970 + cy)).sum := by
    rw [monthLens_sum]
    exact hcomp
  obtain ⟨j, hj, hfm, hTle, hrem⟩ :=
    findMonth_acc (monthLens (1970 + cy)) 0 (n - sumYearLens 1970 cy) hsum
  rw [monthLens_length] at hj
  have hc : civilFromDays n =
      (1970 + cy, 0 + j + 1, (n - sumYearLens 1970 cy -
        ((monthLens (1970 + cy)).take j).sum) + 1) := by
    unfold civilFromDays
    rw [hfy]
    simp only
    rw [hfm]
  rw [hc]
  simp only
  have hgd := monthLens_getD_le (1970 + cy) j
  refine ⟨by omega, by omega, by omega, by omega, by omega, ?_⟩
  rw [daysSince1970_year (1970 + cy) (by omega),
    show 1970 + cy - 1970 = cy by omega,
    show 0 + j + 1 = j + 1 by omega,
    monthPrefixDays_take (1970 + cy) j hj]
  omega

theorem clampMonth_of_range (m : Int) (h1 : 1 ≤ m) (h2 : m ≤ 12) :
    clampMonth m = m := by
  unfold clampMonth
  rw [if_neg (by omega), if_neg (by omega)]

/-- `timegm_compat` applied to the civil decomposition of day `n` gives back
`n * 86400` plus the requested time of day. -/
theorem timegm_civilFromDays (n : Nat) (h mi s : Int) :
    timegm_compat (((civilFromDays n).1 : Nat) : Int)
      (((civilFromDays n).2.1 : Nat) : Int) (((civilFromDays n).2.2 : Nat) : Int)
      h mi s = (n : Int) * 86400 + (h * 3600 + mi * 60 + s) := by
  obtain ⟨hy, hm1, hm2, hd1, hd2, heq⟩ := civilFromDays_spec n
  rw [timegm_compat_clamp_eq,
    clampMonth_of_range (((civilFromDays n).2.1 : Nat) : Int)
      (by exact_mod_cast hm1) (by exact_mod_cast hm2),
    Int.toNat_natCast, heq]
  ring

/-- For non-negative `now`, the day number brackets `now`. -/
theorem dayNumOf_bounds (now : Int) (hnow : 0 ≤ now) :
    ((dayNumOf now : Nat) : Int) * 86400 ≤ now ∧
      now < (((dayNumOf now : Nat) : Int) + 1) * 86400 := by
  unfold dayNumOf
  omega


/-! ### Daily / scan positivity helpers -/

theorem next_trigger_set (a : AlarmItem) (v : Int) :
    ({ a with next_trigger := v }).next_trigger = v := rfl

/-- The Daily candidate is today's day-start plus the (non-negative) time of
day, so the rescheduled trigger is always strictly in the future. -/
theorem recalcDaily_gt (item : AlarmItem) (now : Int) (hnow : 0 ≤ now)
    (hh : 0 ≤ item.hour) (hm : 0 ≤ item.minute) (hs : 0 ≤ item.second) :
    now < recalcDaily item now := by
  have hcand : recalcDaily item now =
      (if timegm_compat (((civilFromDays (dayNumOf now)).1 : Nat) : Int)
          (((civilFromDays (dayNumOf now)).2.1 : Nat) : Int)
          (((civilFromDays (dayNumOf now)).2.2 : Nat) : Int)
          item.hour item.minute item.second ≤ now
       then timegm_compat (((civilFromDays (dayNumOf now)).1 : Nat) : Int)
          (((civilFromDays (dayNumOf now)).2.1 : Nat) : Int)
          (((civilFromDays (dayNumOf now)).2.2 : Nat) : Int)
          item.hour item.minute item.second + 24 * 3600
       else timegm_compat (((civilFromDays (dayNumOf now)).1 : Nat) : Int)
          (((civilFromDays (dayNumOf now)).2.1 : Nat) : Int)
          (((civilFromDays (dayNumOf now)).2.2 : Nat) : Int)
          item.hour item.minute item.second) := rfl
  have hval := timegm_civilFromDays (dayNumOf now) item.hour item.minute item.second
  obtain ⟨hb1, hb2⟩ := dayNumOf_bounds now hnow
  rw [hcand]
  by_cases hle : timegm_compat (((civilFromDays (dayNumOf now)).1 : Nat) : Int)
      (((civilFromDays (dayNumOf now)).2.1 : Nat) : Int)
      (((civilFromDays (dayNumOf now)).2.2 : Nat) : Int)
      item.hour item.minute item.second ≤ now
  · rw [if_pos hle, hval] at *
    omega
  · rw [if_neg hle]
    omega

theorem weeklyCand_gt {item : AlarmItem} {now : Int} {off : Nat} {t : Int}
    (h : weeklyCand item now off = some t) : now < t := by
  simp only [weeklyCand] at h
  by_cases hb : item.weekdays_mask.testBit
      (maskIndexOfWday (wdayOf (now + (off : Int) * 24 * 3600)))
  · rw [if_pos hb] at h
    by_cases hgt : timegm_compat
        (((civilFromDays (dayNumOf (now + (off : Int) * 24 * 3600))).1 : Nat) : Int)
        (((civilFromDays (dayNumOf (now + (off : Int) * 24 * 3600))).2.1 : Nat) : Int)
        (((civilFromDays (dayNumOf (now + (off : Int) * 24 * 3600))).2.2 : Nat) : Int)
        item.hour item.minute item.second > now
    · rw [if_pos hgt] at h
      obtain rfl := Option.some_inj.mp h
      exact hgt
    · rw [if_neg hgt] at h
      exact absurd h (by simp)
  · rw [if_neg hb] at h
    exact absurd h (by simp)

theorem monthlyCand_gt {item : AlarmItem} {now : Int} {y0 m0 i : Nat} {t : Int}
    (h : monthlyCand item now y0 m0 i = some t) : now < t := by
  simp only [monthlyCand] at h
  by_cases hd : (if item.day < 1 then 1 else item.day) >
      ((monthDaysOf (y0 + (m0 + i - 1) / 12) ((m0 + i - 1) % 12 + 1) : Nat) : Int)
  · rw [if_pos hd] at h
    exact absurd h (by simp)
  · rw [if_neg hd] at h
    by_cases hgt : MakeTimeUTC ((y0 + (m0 + i - 1) / 12 : Nat) : Int)
        (((m0 + i - 1) % 12 + 1 : Nat) : Int)
        (if item.day < 1 then 1 else item.day)
        item.hour item.minute item.second > now
    · rw [if_pos hgt] at h
      obtain rfl := Option.some_inj.mp h
      exact hgt
    · rw [if_neg hgt] at h
      exact absurd h (by simp)

theorem recalcWeekly_zero_or_gt (item : AlarmItem) (now : Int) :
    recalcWeekly item now = 0 ∨ now < recalcWeekly item now := by
  unfold recalcWeekly
  cases hfind : (List.range 14).findSome? (weeklyCand item now) with
  | none => exact Or.inl rfl
  | some t =>
    obtain ⟨i, _, hcand, _⟩ :=
      (range_findSome?_eq_some_iff (weeklyCand item now) 14 t).mp hfind
    exact Or.inr (weeklyCand_gt hcand)

theorem recalcMonthly_zero_or_gt (item : AlarmItem) (now : Int) :
    recalcMonthly item now = 0 ∨ now < recalcMonthly item now := by
  simp only [recalcMonthly]
  cases hfind : (List.range 24).findSome? (monthlyCand item now
      (civilFromDays (dayNumOf now)).1 (civilFromDays (dayNumOf now)).2.1) with
  | none => exact Or.inl rfl
  | some t =>
    obtain ⟨i, _, hcand, _⟩ := (range_findSome?_eq_some_iff _ 24 t).mp hfind
    exact Or.inr (monthlyCand_gt hcand)

/-- C10: recalculation never leaves a nonzero trigger at or before `now` —
for every record (documented field ranges: non-negative time of day) and
every non-negative `now`, the recomputed `next_trigger` is 0 or strictly
greater than `now`. -/
theorem C10_recalc_future (item : AlarmItem) (now : Int) (hnow : 0 ≤ now)
    (hh : 0 ≤ item.hour) (hm : 0 ≤ item.minute) (hs : 0 ≤ item.second) :
    (RecalculateNextTrigger item now).next_trigger = 0 ∨
      now < (RecalculateNextTrigger item now).next_trigger := by
  by_cases he : item.enabled
  · cases ht : item.type with
    | OneShot =>
      rw [recalc_oneShot_eq item now he ht]
      by_cases hle : MakeTimeUTC item.year item.month item.day item.hour
          item.minute item.second ≤ now
      · rw [if_pos hle]
        exact Or.inl rfl
      · rw [if_neg hle]
        right
        rw [next_trigger_set]
        omega
    | Daily =>
      rw [recalc_daily_eq item now he ht]
      exact Or.inr (recalcDaily_gt item now hnow hh hm hs)
    | Weekly =>
      rw [recalc_weekly_eq item now he ht]
      exact recalcWeekly_zero_or_gt item now
    | Monthly =>
      rw [recalc_monthly_eq item now he ht]
      exact recalcMonthly_zero_or_gt item now
    | Interval =>
      rw [recalc_interval_eq item now he ht]
      by_cases hg : item.next_trigger = 0 ∨ item.next_trigger ≤ now
      · rw [if_pos hg]
        right
        show now < now + (if item.interval_seconds ≤ 0 then 60 else item.interval_seconds)
        by_cases hc : item.interval_seconds ≤ 0
        · rw [if_pos hc]; omega
        · rw [if_neg hc]; omega
      · rw [if_neg hg]
        right
        push_neg at hg
        exact lt_of_le_of_ne (by omega) (by omega)
  · rw [recalc_of_disabled item now (by simpa using he)]
    exact Or.inl rfl

/-- Witness for C10: a concrete record at a concrete instant. -/
theorem C10_witness :
    (RecalculateNextTrigger daily7am 0).next_trigger = 0 ∨
      0 < (RecalculateNextTrigger daily7am 0).next_trigger :=
  C10_recalc_future daily7am 0 (by norm_num) (by norm_num [daily7am, defaultAlarmItem])
    (by norm_num [daily7am, defaultAlarmItem]) (by norm_num [daily7am, defaultAlarmItem])

/-- C5: for an enabled Daily record, recalculation takes today's date (from
`now`) at the alarm's time of day, adds 24h exactly when that candidate is
≤ `now`, and always yields a nonzero, strictly future trigger; the
07:00-alarm-at-07:05 scenario lands at 07:00 the next day. -/
theorem C5_daily_semantics (item : AlarmItem) (now : Int) (hnow : 0 ≤ now)
    (hh : 0 ≤ item.hour) (hm : 0 ≤ item.minute) (hs : 0 ≤ item.second)
    (he : item.enabled = true) (ht : item.type = AlarmType.Daily) :
    ((RecalculateNextTrigger item now).next_trigger =
      (if timegm_compat (((civilFromDays (dayNumOf now)).1 : Nat) : Int)
          (((civilFromDays (dayNumOf now)).2.1 : Nat) : Int)
          (((civilFromDays (dayNumOf now)).2.2 : Nat) : Int)
          item.hour item.minute item.second ≤ now
       then timegm_compat (((civilFromDays (dayNumOf now)).1 : Nat) : Int)
          (((civilFromDays (dayNumOf now)).2.1 : Nat) : Int)
          (((civilFromDays (dayNumOf now)).2.2 : Nat) : Int)
          item.hour item.minute item.second + 24 * 3600
       else timegm_compat (((civilFromDays (dayNumOf now)).1 : Nat) : Int)
          (((civilFromDays (dayNumOf now)).2.1 : Nat) : Int)
          (((civilFromDays (dayNumOf now)).2.2 : Nat) : Int)
          item.hour item.minute item.second)) ∧
    (RecalculateNextTrigger item now).next_trigger ≠ 0 ∧
    now < (RecalculateNextTrigger item now).next_trigger ∧
    (∀ d : Nat,
      (RecalculateNextTrigger daily7am ((d * 86400 + 25500 : Nat) : Int)).next_trigger
        = (((d + 1) * 86400 + 25200 : Nat) : Int)) := by
  have hr : (RecalculateNextTrigger item now).next_trigger = recalcDaily item now := by
    rw [recalc_daily_eq item now he ht]
  have hgt : now < recalcDaily item now := recalcDaily_gt item now hnow hh hm hs
  refine ⟨by rw [hr]; rfl, by omega, by omega, ?_⟩
  intro d
  have hd7e : daily7am.enabled = true := rfl
  have hd7t : daily7am.type = AlarmType.Daily := rfl
  have hr2 : (RecalculateNextTrigger daily7am ((d * 86400 + 25500 : Nat) : Int)).next_trigger
      = recalcDaily daily7am ((d * 86400 + 25500 : Nat) : Int) := by
    rw [recalc_daily_eq daily7am _ hd7e hd7t]
  rw [hr2]
  have hdn : dayNumOf ((d * 86400 + 25500 : Nat) : Int) = d := by
    unfold dayNumOf
    omega
  have hc : recalcDaily daily7am ((d * 86400 + 25500 : Nat) : Int) =
      (if timegm_compat (((civilFromDays d).1 : Nat) : Int)
          (((civilFromDays d).2.1 : Nat) : Int)
          (((civilFromDays d).2.2 : Nat) : Int) 7 0 0
          ≤ ((d * 86400 + 25500 : Nat) : Int)
       then timegm_compat (((civilFromDays d).1 : Nat) : Int)
          (((civilFromDays d).2.1 : Nat) : Int)
          (((civilFromDays d).2.2 : Nat) : Int) 7 0 0 + 24 * 3600
       else timegm_compat (((civilFromDays d).1 : Nat) : Int)
          (((civilFromDays d).2.1 : Nat) : Int)
          (((civilFromDays d).2.2 : Nat) : Int) 7 0 0) := by
    simp only [recalcDaily, hdn]
    rfl
  rw [hc]
  have hval := timegm_civilFromDays d 7 0 0
  rw [hval, if_pos (by push_cast; omega)]
  push_cast
  ring

set_option maxRecDepth 8000 in
/-- Witness for C5: the 07:00 daily alarm added at 07:05 of day 20372
(2025-10-11) resolves to 07:00 of day 20373. -/
theorem C5_witness :
    (RecalculateNextTrigger daily7am ((20372 * 86400 + 25500 : Nat) : Int)).next_trigger
      = (((20372 + 1) * 86400 + 25200 : Nat) : Int) :=
  (C5_daily_semantics daily7am ((20372 * 86400 + 25500 : Nat) : Int) (by norm_num)
    (by norm_num [daily7am, defaultAlarmItem]) (by norm_num [daily7am, defaultAlarmItem])
    (by norm_num [daily7am, defaultAlarmItem]) rfl rfl).2.2.2 20372


/-! ### Weekly scan helpers -/

theorem enabled_set_trigger (a : AlarmItem) (v : Int) :
    ({ a with next_trigger := v }).enabled = a.enabled := rfl

theorem dayNumOf_add_days (now : Int) (hnow : 0 ≤ now) (off : Nat) :
    dayNumOf (now + (off : Int) * 24 * 3600) = dayNumOf now + off := by
  unfold dayNumOf
  omega

theorem wdayOf_add_days (now : Int) (hnow : 0 ≤ now) (off : Nat) :
    wdayOf (now + (off : Int) * 24 * 3600) = (wdayOf now + off) % 7 := by
  unfold wdayOf
  omega

theorem wdayOf_lt (c : Int) : wdayOf c < 7 := by
  unfold wdayOf
  omega

theorem maskIndexOfWday_inj {w1 w2 : Nat} (h1 : w1 < 7) (h2 : w2 < 7)
    (he : maskIndexOfWday w1 = maskIndexOfWday w2) : w1 = w2 := by
  unfold maskIndexOfWday at he
  by_cases z1 : w1 = 0 <;> by_cases z2 : w2 = 0 <;>
    simp [z1, z2] at he ⊢ <;> omega

/-- The Weekly candidate at offset `off`, with the day number and weekday of
the shifted instant computed from those of `now`. -/
theorem weeklyCand_shape (item : AlarmItem) (now : Int) (hnow : 0 ≤ now)
    (off : Nat) :
    weeklyCand item now off =
      (if item.weekdays_mask.testBit (maskIndexOfWday ((wdayOf now + off) % 7)) then
        (if timegm_compat (((civilFromDays (dayNumOf now + off)).1 : Nat) : Int)
            (((civilFromDays (dayNumOf now + off)).2.1 : Nat) : Int)
            (((civilFromDays (dayNumOf now + off)).2.2 : Nat) : Int)
            item.hour item.minute item.second > now
         then some (timegm_compat (((civilFromDays (dayNumOf now + off)).1 : Nat) : Int)
            (((civilFromDays (dayNumOf now + off)).2.1 : Nat) : Int)
            (((civilFromDays (dayNumOf now + off)).2.2 : Nat) : Int)
            item.hour item.minute item.second)
         else none)
      else none) := by
  simp only [weeklyCand]
  rw [dayNumOf_add_days now hnow off, wdayOf_add_days now hnow off]

set_option maxHeartbeats 1000000 in
/-- C3: the Weekly branch scans at most 14 consecutive days: a candidate is
offered at day offset `off` exactly when the weekday bit of that day is set,
built at the record's time of day, and accepted exactly when strictly greater
than `now`; the trigger is the first accepted candidate and 0 when none
exists (in particular for an empty mask, which leaves the record enabled);
a mask selecting only today's weekday with today's instant already passed
resolves to the same instant one week later. -/
theorem C3_weekly_semantics (item : AlarmItem) (now : Int) (hnow : 0 ≤ now)
    (hh : 0 ≤ item.hour) (hm : 0 ≤ item.minute) (hs : 0 ≤ item.second)
    (he : item.enabled = true) (ht : item.type = AlarmType.Weekly) :
    (∀ (off : Nat) (t : Int), weeklyCand item now off = some t ↔
      (item.weekdays_mask.testBit (maskIndexOfWday ((wdayOf now + off) % 7)) = true ∧
       t = timegm_compat (((civilFromDays (dayNumOf now + off)).1 : Nat) : Int)
            (((civilFromDays (dayNumOf now + off)).2.1 : Nat) : Int)
            (((civilFromDays (dayNumOf now + off)).2.2 : Nat) : Int)
            item.hour item.minute item.second ∧
       now < t)) ∧
    ((RecalculateNextTrigger item now).next_trigger ≠ 0 →
      ∃ i, i < 14 ∧
        weeklyCand item now i = some ((RecalculateNextTrigger item now).next_trigger) ∧
        ∀ j, j < i → weeklyCand item now j = none) ∧
    ((∀ i, i < 14 → weeklyCand item now i = none) →
      (RecalculateNextTrigger item now).next_trigger = 0) ∧
    (item.weekdays_mask = 0 →
      (RecalculateNextTrigger item now).next_trigger = 0 ∧
      (RecalculateNextTrigger item now).enabled = true) ∧
    (item.weekdays_mask = 2 ^ maskIndexOfWday (wdayOf now) →
      timegm_compat (((civilFromDays (dayNumOf now)).1 : Nat) : Int)
        (((civilFromDays (dayNumOf now)).2.1 : Nat) : Int)
        (((civilFromDays (dayNumOf now)).2.2 : Nat) : Int)
        item.hour item.minute item.second ≤ now →
      (RecalculateNextTrigger item now).next_trigger =
        timegm_compat (((civilFromDays (dayNumOf now)).1 : Nat) : Int)
          (((civilFromDays (dayNumOf now)).2.1 : Nat) : Int)
          (((civilFromDays (dayNumOf now)).2.2 : Nat) : Int)
          item.hour item.minute item.second + 7 * 86400) := by
  have hrw : (RecalculateNextTrigger item now).next_trigger = recalcWeekly item now := by
    rw [recalc_weekly_eq item now he ht, next_trigger_set]
  refine ⟨?_, ?_, ?_, ?_, ?_⟩
  · intro off t
    rw [weeklyCand_shape item now hnow off]
    by_cases hb : item.weekdays_mask.testBit (maskIndexOfWday ((wdayOf now + off) % 7))
    · rw [if_pos hb]
      by_cases hgt : timegm_compat (((civilFromDays (dayNumOf now + off)).1 : Nat) : Int)
          (((civilFromDays (dayNumOf now + off)).2.1 : Nat) : Int)
          (((civilFromDays (dayNumOf now + off)).2.2 : Nat) : Int)
          item.hour item.minute item.second > now
      · rw [if_pos hgt]
        constructor
        · intro hsome
          obtain rfl := Option.some_inj.mp hsome
          exact ⟨hb, rfl, hgt⟩
        · rintro ⟨_, rfl, _⟩
          rfl
      · rw [if_neg hgt]
        constructor
        · intro hsome
          exact absurd hsome (by simp)
        · rintro ⟨_, rfl, hlt⟩
          exact absurd hlt hgt
    · rw [if_neg hb]
      constructor
      · intro hsome
        exact absurd hsome (by simp)
      · rintro ⟨hbit, _, _⟩
        exact absurd hbit (by simpa using hb)
  · intro hne
    rw [hrw] at hne ⊢
    unfold recalcWeekly at hne ⊢
    cases hfind : (List.range 14).findSome? (weeklyCand item now) with
    | none => rw [hfind] at hne; exact absurd rfl hne
    | some t =>
      obtain ⟨i, hi, hcand, hfirst⟩ :=
        (range_findSome?_eq_some_iff (weeklyCand item now) 14 t).mp hfind
      exact ⟨i, hi, by simpa using hcand, hfirst⟩
  · intro hall
    rw [hrw]
    unfold recalcWeekly
    rw [(range_findSome?_eq_none_iff (weeklyCand item now) 14).mpr hall]
    rfl
  · intro hmask
    have hall : ∀ i, i < 14 → weeklyCand item now i = none := by
      intro i _
      rw [weeklyCand_shape item now hnow i, hmask]
      rw [Nat.zero_testBit]
      rfl
    refine ⟨?_, ?_⟩
    · rw [hrw]
      unfold recalcWeekly
      rw [(range_findSome?_eq_none_iff (weeklyCand item now) 14).mpr hall]
      rfl
    · rw [recalc_weekly_eq item now he ht, enabled_set_trigger]
      exact he
  · intro hmask ht0
    have hw0 : wdayOf now < 7 := wdayOf_lt now
    have hT0 := timegm_civilFromDays (dayNumOf now) item.hour item.minute item.second
    have hT7 := timegm_civilFromDays (dayNumOf now + 7) item.hour item.minute item.second
    obtain ⟨hb1, hb2⟩ := dayNumOf_bounds now hnow
    have htod : 0 ≤ item.hour * 3600 + item.minute * 60 + item.second := by
      omega
    have hkey : (List.range 14).findSome? (weeklyCand item now) =
        some (timegm_compat (((civilFromDays (dayNumOf now)).1 : Nat) : Int)
          (((civilFromDays (dayNumOf now)).2.1 : Nat) : Int)
          (((civilFromDays (dayNumOf now)).2.2 : Nat) : Int)
          item.hour item.minute item.second + 7 * 86400) := by
      apply (range_findSome?_eq_some_iff (weeklyCand item now) 14 _).mpr
      refine ⟨7, by norm_num, ?_, ?_⟩
      · rw [weeklyCand_shape item now hnow 7]
        have hw7 : (wdayOf now + 7) % 7 = wdayOf now := by omega
        have e7 : timegm_compat (((civilFromDays (dayNumOf now + 7)).1 : Nat) : Int)
            (((civilFromDays (dayNumOf now + 7)).2.1 : Nat) : Int)
            (((civilFromDays (dayNumOf now + 7)).2.2 : Nat) : Int)
            item.hour item.minute item.second =
            timegm_compat (((civilFromDays (dayNumOf now)).1 : Nat) : Int)
            (((civilFromDays (dayNumOf now)).2.1 : Nat) : Int)
            (((civilFromDays (dayNumOf now)).2.2 : Nat) : Int)
            item.hour item.minute item.second + 7 * 86400 := by
          rw [hT7, hT0]
          push_cast
          ring
        rw [hw7, hmask, Nat.testBit_two_pow_self, if_pos rfl,
          if_pos (by rw [hT7]; push_cast; omega), e7]
      · intro j hj
        rw [weeklyCand_shape item now hnow j]
        by_cases hj0 : j = 0
        · subst hj0
          have hw00 : (wdayOf now + 0) % 7 = wdayOf now := by omega
          have hd0 : dayNumOf now + 0 = dayNumOf now := by omega
          rw [hw00, hd0, hmask, Nat.testBit_two_pow_self, if_pos rfl,
            if_neg (not_lt.mpr ht0)]
        · have hne : maskIndexOfWday (wdayOf now) ≠
              maskIndexOfWday ((wdayOf now + j) % 7) := by
            intro heq
            have hlt7 : (wdayOf now + j) % 7 < 7 := by omega
            have := maskIndexOfWday_inj hw0 hlt7 heq
            omega
          rw [hmask, Nat.testBit_two_pow_of_ne hne]
          rfl
    rw [hrw]
    unfold recalcWeekly
    rw [hkey]
    rfl

set_option maxRecDepth 8000 in
/-- Witness for C3: a Saturdays-only 07:00 alarm at 07:05 UTC on Saturday
2025-10-11 (day 20372, second 25500 of the day) resolves to 07:00 the next
Saturday. -/
theorem C3_witness :
    (RecalculateNextTrigger weeklySat7am ((20372 * 86400 + 25500 : Nat) : Int)).next_trigger
      = timegm_compat (((civilFromDays (dayNumOf ((20372 * 86400 + 25500 : Nat) : Int))).1 : Nat) : Int)
          (((civilFromDays (dayNumOf ((20372 * 86400 + 25500 : Nat) : Int))).2.1 : Nat) : Int)
          (((civilFromDays (dayNumOf ((20372 * 86400 + 25500 : Nat) : Int))).2.2 : Nat) : Int)
          weeklySat7am.hour weeklySat7am.minute weeklySat7am.second + 7 * 86400 :=
  (C3_weekly_semantics weeklySat7am ((20372 * 86400 + 25500 : Nat) : Int)
    (by norm_num) (by norm_num [weeklySat7am, defaultAlarmItem])
    (by norm_num [weeklySat7am, defaultAlarmItem])
    (by norm_num [weeklySat7am, defaultAlarmItem]) rfl rfl).2.2.2.2
    (by decide) (by decide)


/-! ### Monthly scan -/

set_option maxRecDepth 20000 in
set_option maxHeartbeats 1000000 in
/-- C2: the Monthly branch scans at most 24 candidate months starting from
`now`'s month: a month whose day count (31; 30 for Apr/Jun/Sep/Nov; 28/29 for
February by the leap rule) is smaller than the record's day offers no
candidate (no end-of-month clamping), an offered candidate is built exactly
on the record's day at its time of day, the trigger is the first candidate
strictly greater than `now`, and it is 0 when no month within 24 qualifies;
in particular a day-31 alarm scanned from February 2025 resolves to
March 31. -/
theorem C2_monthly_semantics (item : AlarmItem) (now : Int)
    (he : item.enabled = true) (ht : item.type = AlarmType.Monthly) :
    (∀ (i : Nat) (t : Int),
      monthlyCand item now (civilFromDays (dayNumOf now)).1
          (civilFromDays (dayNumOf now)).2.1 i = some t ↔
        ((if item.day < 1 then 1 else item.day) ≤
          ((monthDaysOf
              ((civilFromDays (dayNumOf now)).1 +
                ((civilFromDays (dayNumOf now)).2.1 + i - 1) / 12)
              (((civilFromDays (dayNumOf now)).2.1 + i - 1) % 12 + 1) : Nat) : Int) ∧
         t = MakeTimeUTC
            (((civilFromDays (dayNumOf now)).1 +
              ((civilFromDays (dayNumOf now)).2.1 + i - 1) / 12 : Nat) : Int)
            ((((civilFromDays (dayNumOf now)).2.1 + i - 1) % 12 + 1 : Nat) : Int)
            (if item.day < 1 then 1 else item.day)
            item.hour item.minute item.second ∧
         now < t)) ∧
    ((RecalculateNextTrigger item now).next_trigger ≠ 0 →
      ∃ i, i < 24 ∧
        monthlyCand item now (civilFromDays (dayNumOf now)).1
          (civilFromDays (dayNumOf now)).2.1 i =
            some ((RecalculateNextTrigger item now).next_trigger) ∧
        ∀ j, j < i →
          monthlyCand item now (civilFromDays (dayNumOf now)).1
            (civilFromDays (dayNumOf now)).2.1 j = none) ∧
    ((∀ i, i < 24 →
        monthlyCand item now (civilFromDays (dayNumOf now)).1
          (civilFromDays (dayNumOf now)).2.1 i = none) →
      (RecalculateNextTrigger item now).next_trigger = 0) ∧
    (RecalculateNextTrigger monthly31st8am
        (timegm_compat 2025 2 10 12 0 0)).next_trigger =
      timegm_compat 2025 3 31 8 0 0 := by
  have hrw : (RecalculateNextTrigger item now).next_trigger =
      recalcMonthly item now := by
    rw [recalc_monthly_eq item now he ht, next_trigger_set]
  refine ⟨?_, ?_, ?_, by decide⟩
  · intro i t
    simp only [monthlyCand]
    by_cases hd : (if item.day < 1 then 1 else item.day) >
        ((monthDaysOf
            ((civilFromDays (dayNumOf now)).1 +
              ((civilFromDays (dayNumOf now)).2.1 + i - 1) / 12)
            (((civilFromDays (dayNumOf now)).2.1 + i - 1) % 12 + 1) : Nat) : Int)
    · rw [if_pos hd]
      constructor
      · intro hsome
        exact absurd hsome (by simp)
      · rintro ⟨hle, _, _⟩
        exact absurd hd (not_lt.mpr hle)
    · rw [if_neg hd]
      by_cases hgt : MakeTimeUTC
          (((civilFromDays (dayNumOf now)).1 +
            ((civilFromDays (dayNumOf now)).2.1 + i - 1) / 12 : Nat) : Int)
          ((((civilFromDays (dayNumOf now)).2.1 + i - 1) % 12 + 1 : Nat) : Int)
          (if item.day < 1 then 1 else item.day)
          item.hour item.minute item.second > now
      · rw [if_pos hgt]
        constructor
        · intro hsome
          obtain rfl := Option.some_inj.mp hsome
          exact ⟨not_lt.mp hd, rfl, hgt⟩
        · rintro ⟨_, rfl, _⟩
          rfl
      · rw [if_neg hgt]
        constructor
        · intro hsome
          exact absurd hsome (by simp)
        · rintro ⟨_, rfl, hlt⟩
          exact absurd hlt hgt
  · intro hne
    rw [hrw] at hne ⊢
    simp only [recalcMonthly] at hne ⊢
    cases hfind : (List.range 24).findSome? (monthlyCand item now
        (civilFromDays (dayNumOf now)).1 (civilFromDays (dayNumOf now)).2.1) with
    | none => rw [hfind] at hne; exact absurd rfl hne
    | some t =>
      obtain ⟨i, hi, hcand, hfirst⟩ :=
        (range_findSome?_eq_some_iff _ 24 t).mp hfind
      exact ⟨i, hi, by simpa using hcand, hfirst⟩
  · intro hall
    rw [hrw]
    simp only [recalcMonthly]
    rw [(range_findSome?_eq_none_iff _ 24).mpr hall]
    rfl

set_option maxRecDepth 8000 in
/-- Witness for C2: the February day-31 scenario at concrete instants. -/
theorem C2_witness :
    (RecalculateNextTrigger monthly31st8am
        (timegm_compat 2025 2 10 12 0 0)).next_trigger =
      timegm_compat 2025 3 31 8 0 0 :=
  (C2_monthly_semantics monthly31st8am 0 rfl rfl).2.2.2

end AlarmMgr
